import Mathlib

/-!
Verification development for the MailLLM mailbox-acquisition pipeline.

The Python sources `mail_downloader.py` (EWS/POP3 backend, class
`MailDownloader`) and `mailhandler/mail_downloader_graph.py` (Microsoft
Graph backend, class `MailDownloaderGraph`) are shallowly embedded below:
pure text transformations become functions on `List Char` / `String`,
the chunked download loops become fuel-indexed state functions, network
and filesystem effects become explicit oracle parameters, and Python
exceptions become explicit error values.
-/

namespace MailLLM

/-- Python `str` whitespace characters relevant here (`\s` for `re`,
`str.strip`, `str.isspace`): ASCII whitespace plus the no-break space,
which is the only non-ASCII whitespace character produced by the
entity decoding we model. -/
def pyWhitespace : List Char := [' ', '\t', '\n', '\r', '\x0b', '\x0c', ' ']

/-- Whether a character counts as whitespace for Python `\s` / `strip`. -/
def pyIsSpace (c : Char) : Bool := pyWhitespace.contains c

/-- Python `str.strip()`: drop leading and trailing whitespace. -/
def pyStrip (l : List Char) : List Char :=
  ((l.dropWhile pyIsSpace).reverse.dropWhile pyIsSpace).reverse

/-- One pass of Python `re.sub(r'\s+', ' ', text)`: every maximal run of
whitespace is replaced by a single space.  The boolean records whether the
previously read character was inside a whitespace run. -/
def collapseWsAux : List Char → Bool → List Char
  | [], _ => []
  | c :: cs, prevWs =>
    if pyIsSpace c then
      if prevWs then collapseWsAux cs true
      else ' ' :: collapseWsAux cs true
    else c :: collapseWsAux cs false

/-- Python `re.sub(r'\s+', ' ', text)`. -/
def collapseWs (l : List Char) : List Char := collapseWsAux l false

/-- Helper for `re.sub(r'<[^>]+>', '', text)`: given the characters after
a `<`, if they start with a nonempty run of non-`>` characters followed by
`>`, return the remainder after that `>` (the regex match succeeds), else
`none`. -/
def findTagEnd (cs : List Char) : Option (List Char) :=
  if (cs.takeWhile (fun c => c ≠ '>')).isEmpty then none
  else
    match cs.drop (cs.takeWhile (fun c => c ≠ '>')).length with
    | '>' :: rest => some rest
    | _ => none

/-- Fuel-indexed scanner for Python `re.sub(r'<[^>]+>', '', text)`:
replaces every non-overlapping match of `<`, one-or-more non-`>`
characters, `>` by nothing, scanning left to right. -/
def removeTagsFuel : Nat → List Char → List Char
  | 0, l => l
  | _ + 1, [] => []
  | fuel + 1, c :: cs =>
    if c = '<' then
      match findTagEnd cs with
      | some rest => removeTagsFuel fuel rest
      | none => c :: removeTagsFuel fuel cs
    else c :: removeTagsFuel fuel cs

/-- Python `re.sub(r'<[^>]+>', '', text)`. -/
def removeTags (l : List Char) : List Char := removeTagsFuel l.length l

/-- Digits of a decimal numeric character reference to a number. -/
def digitsToNat (l : List Char) : Nat :=
  l.foldl (fun acc c => acc * 10 + (c.toNat - 48)) 0

/-- Value of one HTML entity name (the part between `&` and `;`).
Models Python `html.unescape` restricted to the common named entities
and ASCII decimal numeric references; other entity names are left
untouched, like unknown entities are in Python. -/
def entityValue : List Char → Option Char
  | ['a', 'm', 'p'] => some '&'
  | ['l', 't'] => some '<'
  | ['g', 't'] => some '>'
  | ['q', 'u', 'o', 't'] => some '"'
  | ['n', 'b', 's', 'p'] => some ' '
  | '#' :: ds =>
    if ds ≠ [] ∧ ds.length ≤ 3 ∧ ds.all (fun c => c.isDigit) ∧ digitsToNat ds < 128 then
      some (Char.ofNat (digitsToNat ds))
    else none
  | _ => none

/-- Fuel-indexed scanner for the modelled `html.unescape`: at `&`, read up
to the next `;`; if that names a modelled entity, emit its character and
continue after the `;`, else keep the `&` literally. -/
def unescapeFuel : Nat → List Char → List Char
  | 0, l => l
  | _ + 1, [] => []
  | fuel + 1, c :: cs =>
    if c = '&' then
      let name := cs.takeWhile (fun d => d ≠ ';')
      match cs.drop name.length, entityValue name with
      | ';' :: rest, some e => e :: unescapeFuel fuel rest
      | _, _ => c :: unescapeFuel fuel cs
    else c :: unescapeFuel fuel cs

/-- Modelled from the source's call to Python `html.unescape` (standard
library); restricted to the common entities listed at `entityValue`. -/
def pyUnescape (l : List Char) : List Char := unescapeFuel l.length l

/-- Index (from the front) of the last newline inside a list, if any. -/
def lastNewlineIdx (l : List Char) : Option Nat :=
  match l.reverse.findIdx? (fun c => c = '\n') with
  | some k => some (l.length - 1 - k)
  | none => none

/-- Fuel-indexed scanner for Python `re.sub(r'\n\s*\n', '\n\n', text)`:
at a newline, the greedy-with-backtracking match extends through the
whitespace run that follows up to the last newline inside that run; a
match is replaced by exactly two newlines and scanning resumes after it. -/
def collapseNlFuel : Nat → List Char → List Char
  | 0, l => l
  | _ + 1, [] => []
  | fuel + 1, c :: cs =>
    if c = '\n' then
      let run := cs.takeWhile pyIsSpace
      match lastNewlineIdx run with
      | some k => '\n' :: '\n' :: collapseNlFuel fuel (cs.drop (k + 1))
      | none => c :: collapseNlFuel fuel cs
    else c :: collapseNlFuel fuel cs

/-- Python `re.sub(r'\n\s*\n', '\n\n', text)`. -/
def collapseNewlines (l : List Char) : List Char := collapseNlFuel l.length l

/-- Python `text.split('\n')` on character lists. -/
def splitNl : List Char → List (List Char)
  | [] => [[]]
  | c :: cs =>
    if c = '\n' then [] :: splitNl cs
    else
      match splitNl cs with
      | [] => [[c]]
      | g :: gs => (c :: g) :: gs

/-- Python `'\n'.join(line.strip() for line in text.split('\n'))`. -/
def perLineStrip (l : List Char) : List Char :=
  List.intercalate ['\n'] ((splitNl l).map pyStrip)

/-- The characters `re.sub(r'[<>:"/\\|?*]', '_', filename)` replaces. -/
def invalidChars : List Char := ['<', '>', ':', '"', '/', '\\', '|', '?', '*']

/-- Python `re.sub(r'[<>:"/\\|?*]', '_', filename)`. -/
def replaceInvalid (l : List Char) : List Char :=
  l.map (fun c => if c ∈ invalidChars then '_' else c)

/-- One pass of `re.sub(r'_+', '_', filename)`; the boolean records
whether the previous character was an underscore. -/
def collapseUnderscoresAux : List Char → Bool → List Char
  | [], _ => []
  | c :: cs, prevU =>
    if c = '_' then
      if prevU then collapseUnderscoresAux cs true
      else '_' :: collapseUnderscoresAux cs true
    else c :: collapseUnderscoresAux cs false

/-- Python `re.sub(r'_+', '_', filename)`. -/
def collapseUnderscores (l : List Char) : List Char := collapseUnderscoresAux l false

/-- Body of both `sanitize_filename` variants: replace the invalid
characters by `_`, collapse runs of `_`, strip outer whitespace, then cap
the length (`100` in `MailDownloader`, `50` in `MailDownloaderGraph`). -/
def sanitizeChars (cap : Nat) (l : List Char) : List Char :=
  (pyStrip (collapseUnderscores (replaceInvalid l))).take cap

/-- Python truthiness of an optional string (`None` and `''` are falsy). -/
def optTruthy : Option String → Bool
  | none => false
  | some s => decide (s ≠ "")

/-- Python `s.startswith(pre)` (kernel-friendly form of
`String.startsWith`). -/
def strStartsWith (s pre : String) : Bool := pre.data.isPrefixOf s.data

/-- Python `s.endswith(suffix)` (kernel-friendly form of
`String.endsWith`). -/
def strEndsWith (s suffix : String) : Bool := suffix.data.isSuffixOf s.data

/-- ASCII lowercasing of one character, as Python `str.lower()` acts on
the ASCII content-type and file-name strings compared here. -/
def charToLower (c : Char) : Char :=
  if 'A' ≤ c ∧ c ≤ 'Z' then Char.ofNat (c.toNat + 32) else c

/-- Python `s.lower()` on ASCII strings. -/
def strToLower (s : String) : String := String.mk (s.data.map charToLower)

namespace MailDownloader

/-- `MailDownloader.sanitize_filename` (`mail_downloader.py:95`):
replace `<>:"/\|?*` by `_`, collapse repeated `_`, strip, cap at 100. -/
def sanitize_filename (s : String) : String :=
  String.mk (sanitizeChars 100 s.data)

/-- `MailDownloader.extract_text_from_email` (`mail_downloader.py:108`):
convert via `html2text` only when the content type is marked
`text/html`, then strip, collapse whitespace runs to one space, and
apply the (here vacuous) blank-line collapse.  The third-party
`html2text` converter is the explicit parameter `handle`. -/
def extract_text_from_email (handle : String → String)
    (email_content : String) (content_type : String) : String :=
  let text := if strStartsWith content_type "text/html" then handle email_content
              else email_content
  String.mk (collapseNewlines (collapseWs (pyStrip text.data)))

end MailDownloader

namespace MailDownloaderGraph

/-- `MailDownloaderGraph.sanitize_filename`
(`mail_downloader_graph.py:122`): same as the EWS variant but capped at
50 characters. -/
def sanitize_filename (s : String) : String :=
  String.mk (sanitizeChars 50 s.data)

/-- `MailDownloaderGraph.extract_text_from_email`
(`mail_downloader_graph.py:131`): convert via `html2text` only when
marked `text/html`, then strip, remove residual HTML tags, decode HTML
entities, collapse whitespace runs to one space, apply the (vacuous)
blank-line collapse, and strip every line. -/
def extract_text_from_email (handle : String → String)
    (email_content : String) (content_type : String) : String :=
  let text := if strStartsWith content_type "text/html" then handle email_content
              else email_content
  String.mk
    (perLineStrip (collapseNewlines (collapseWs
      (pyUnescape (removeTags (pyStrip text.data))))))

end MailDownloaderGraph

/-! ## Chunked download loops

Both download paths drive one folder with a chunked fetch loop.  The
backend is a function from the pagination offset to either a raised
transport error (`Except.error`) or the page of raw messages; saving one
message is an oracle returning the written file path, or `none` when the
save produced nothing or raised (the loops catch per-message exceptions
and continue either way).  Fuel bounds the number of iterations so that
the functions stay total; a run that exhausts its fuel reports
`finished = false`. -/

/-- A raw message as far as the loops inspect it: the backend-native id
(`none` when the payload has no `id` field) and an opaque payload tag. -/
structure GraphMsg where
  id : Option String
  data : String
  deriving DecidableEq, Repr

namespace MailDownloader

/-- The configuration fields of `MailDownloader` the folder loop reads. -/
structure Cfg where
  chunk_size : Nat
  load_all_emails : Bool
  max_emails : Nat
  deriving Repr

/-- Result of one folder loop: files appended so far, number of page
fetches issued, whether the loop reached one of its exits, and whether a
transport error was raised. -/
structure LoopResult where
  files : List String
  calls : Nat
  finished : Bool
  failed : Bool
  deriving Repr

/-- The `while True` loop of `MailDownloader._download_from_folder`
(`mail_downloader.py:175`): fetch the slice at `offset`, stop on an empty
page, save each message (failures skipped), truncate-and-stop when the
`max_emails` cap is reached and `load_all_emails` is off, stop on a short
page, advance the offset by `chunk_size`, and stop when the offset
reaches the hard 1000 safety ceiling. -/
def loopFuel {α} (cfg : Cfg) (fetchPage : Nat → Except Unit (List α))
    (save : α → Option String) :
    Nat → Nat → List String → Nat → LoopResult
  | 0, _, files, calls => ⟨files, calls, false, false⟩
  | fuel + 1, offset, files, calls =>
    match fetchPage offset with
    | .error _ => ⟨files, calls + 1, true, true⟩
    | .ok msgs =>
      if msgs.isEmpty then ⟨files, calls + 1, true, false⟩
      else
        let files := files ++ msgs.filterMap save
        if ¬cfg.load_all_emails ∧ cfg.max_emails ≤ files.length then
          ⟨files.take cfg.max_emails, calls + 1, true, false⟩
        else if msgs.length < cfg.chunk_size then
          ⟨files, calls + 1, true, false⟩
        else
          let offset := offset + cfg.chunk_size
          if 1000 ≤ offset then ⟨files, calls + 1, true, false⟩
          else loopFuel cfg fetchPage save fuel offset (files) (calls + 1)

/-- `MailDownloader._download_from_folder`: run the loop from offset 0;
the surrounding `try/except` turns any transport error raised while
working on the folder into an empty result list. -/
def _download_from_folder {α} (cfg : Cfg) (fetchPage : Nat → Except Unit (List α))
    (save : α → Option String) (fuel : Nat) : List String :=
  let r := loopFuel cfg fetchPage save fuel 0 [] 0
  if r.failed then [] else r.files

/-- The per-folder aggregation of `MailDownloader.download_via_ews` and
`_download_from_folders`: the folders enumerated for the run (inbox,
walked folders, archive) are processed in order and their result lists
concatenated; there is no message deduplication anywhere on this path. -/
def download_run {α} (cfg : Cfg) (folderFetches : List (Nat → Except Unit (List α)))
    (save : α → Option String) (fuel : Nat) : List String :=
  (folderFetches.map (fun f => _download_from_folder cfg f save fuel)).flatten

end MailDownloader

namespace MailDownloaderGraph

/-- The configuration fields of `MailDownloaderGraph` the loops read.
`max_emails_per_folder` is `MAX_EMAILS_PER_FOLDER`, default `0`, where
`0` means unlimited. -/
structure Cfg where
  chunk_size : Nat
  load_all_emails : Bool
  max_emails : Nat
  max_emails_per_folder : Nat
  deriving Repr

/-- The per-chunk body of
`MailDownloaderGraph._download_and_save_emails_from_folder`
(`mail_downloader_graph.py:432`): for each email in the page, skip it
when its id is truthy and already in `seen_email_ids`, else add the id to
the set and try to save (a failed or raising save is skipped).  Returns
the updated seen set, the file paths appended by this chunk, and — as a
verification-only observation — the emails that passed the dedup check. -/
def processEmails (save : GraphMsg → Option String) :
    List GraphMsg → List (Option String) → List (Option String) × List String × List GraphMsg
  | [], seen => (seen, [], [])
  | m :: rest, seen =>
    if optTruthy m.id ∧ m.id ∈ seen then processEmails save rest seen
    else
      let seen := m.id :: seen
      let (seenR, files, att) := processEmails save rest seen
      (seenR, (save m).toList ++ files, m :: att)

/-- Result of one Graph folder loop: the files saved, the threaded
`seen_email_ids` set, fetches issued, whether a loop exit was reached,
and whether a transport error was raised. -/
structure LoopResult where
  files : List String
  seen : List (Option String)
  calls : Nat
  finished : Bool
  failed : Bool
  deriving Repr

/-- The `while True` loop of
`_download_and_save_emails_from_folder` (`mail_downloader_graph.py:408`):
fetch the page at `skip_count`, stop on an empty page, process the chunk
through the dedup-and-save body, stop (without truncating) when the
`max_emails` cap is reached and `load_all_emails` is off, stop on a short
page, advance `skip_count` by `chunk_size`, and stop at the optional
per-folder ceiling, which is active only when `max_emails_per_folder` is
positive. -/
def loopFuel (cfg : Cfg) (fetchPage : Nat → Except Unit (List GraphMsg))
    (save : GraphMsg → Option String) :
    Nat → Nat → List (Option String) → List String → Nat → LoopResult
  | 0, _, seen, files, calls => ⟨files, seen, calls, false, false⟩
  | fuel + 1, skip, seen, files, calls =>
    match fetchPage skip with
    | .error _ => ⟨files, seen, calls + 1, true, true⟩
    | .ok emails =>
      if emails.isEmpty then ⟨files, seen, calls + 1, true, false⟩
      else
        let (seen, newFiles, _) := processEmails save emails seen
        let files := files ++ newFiles
        if ¬cfg.load_all_emails ∧ cfg.max_emails ≤ files.length then
          ⟨files, seen, calls + 1, true, false⟩
        else if emails.length < cfg.chunk_size then
          ⟨files, seen, calls + 1, true, false⟩
        else
          let skip := skip + cfg.chunk_size
          if 0 < cfg.max_emails_per_folder ∧ cfg.max_emails_per_folder ≤ skip then
            ⟨files, seen, calls + 1, true, false⟩
          else loopFuel cfg fetchPage save fuel skip seen files (calls + 1)

/-- `_download_and_save_emails_from_folder`: run the loop from skip 0
with the caller's `seen_email_ids`; on a transport error the folder
returns an empty list, but the mutations of the shared seen set made
before the error persist. -/
def _download_and_save_emails_from_folder (cfg : Cfg)
    (fetchPage : Nat → Except Unit (List GraphMsg))
    (save : GraphMsg → Option String) (fuel : Nat)
    (seen : List (Option String)) : List String × List (Option String) :=
  let r := loopFuel cfg fetchPage save fuel 0 seen [] 0
  (if r.failed then [] else r.files, r.seen)

/-- `_download_and_save_emails_from_folders`
(`mail_downloader_graph.py:477`): process the enumerated folders in
order, threading `seen_email_ids` through and concatenating the per
folder results; a folder that fails contributes its (empty) result and
the run continues. -/
def download_folders_run (cfg : Cfg)
    (folderFetches : List (Nat → Except Unit (List GraphMsg)))
    (save : GraphMsg → Option String) (fuel : Nat)
    (seen : List (Option String)) : List String × List (Option String) :=
  folderFetches.foldl
    (fun acc f =>
      let r := _download_and_save_emails_from_folder cfg f save fuel acc.2
      (acc.1 ++ r.1, r.2))
    ([], seen)

/-- The environment-sourced settings `_validate_config`
(`mail_downloader_graph.py:84`) checks; `none` or the empty string model
an unset variable (both falsy in Python). -/
structure Settings where
  email_address : Option String
  client_id : Option String
  client_secret : Option String
  tenant_id : Option String

/-- `MailDownloaderGraph._validate_config`: raises `ValueError` when the
mail address or any of the three OAuth client settings is missing (the
`msal`-availability check is assumed to pass). -/
def _validate_config (s : Settings) : Except String Unit :=
  if ¬ optTruthy s.email_address then
    .error "EMAIL_ADDRESS muss in .env gesetzt werden"
  else if ¬ (optTruthy s.client_id ∧ optTruthy s.client_secret ∧ optTruthy s.tenant_id) then
    .error "CLIENT_ID, CLIENT_SECRET und TENANT_ID muessen in .env gesetzt werden"
  else .ok ()

/-- `MailDownloaderGraph.get_access_token`
(`mail_downloader_graph.py:95`): the `msal` token acquisition either
yields a result carrying `access_token` (modelled `some token`) or not;
in the latter case the method raises `ValueError`. -/
def get_access_token (msalResult : Option String) : Except String String :=
  match msalResult with
  | some tok => .ok tok
  | none => .error "Fehler beim OAuth2-Token"

/-- The external world of one Graph run: the `msal` outcome, the page
fetchers of the inbox, the walked folders and the archive, and the save
oracle. -/
structure RunEnv where
  msalResult : Option String
  inboxFetch : Nat → Except Unit (List GraphMsg)
  folderFetches : List (Nat → Except Unit (List GraphMsg))
  archiveFetch : Nat → Except Unit (List GraphMsg)
  save : GraphMsg → Option String

/-- `MailDownloaderGraph.download_via_graph_api`
(`mail_downloader_graph.py:334`): acquire the token (a failure
propagates), then download inbox, walked folders and archive in that
order with one fresh run-scoped `seen_email_ids` set. -/
def download_via_graph_api (cfg : Cfg) (includeFolders includeArchive : Bool)
    (env : RunEnv) (fuel : Nat) : Except String (List String) := do
  let _tok ← get_access_token env.msalResult
  let seen : List (Option String) := []
  let inbox := _download_and_save_emails_from_folder cfg env.inboxFetch env.save fuel seen
  let folders :=
    if includeFolders then download_folders_run cfg env.folderFetches env.save fuel inbox.2
    else ([], inbox.2)
  let archive :=
    if includeArchive then _download_and_save_emails_from_folder cfg env.archiveFetch env.save fuel folders.2
    else ([], folders.2)
  .ok (inbox.1 ++ folders.1 ++ archive.1)

/-- `MailDownloaderGraph.download_emails`
(`mail_downloader_graph.py:368`): the catch-all `except` turns any
exception raised during the download — including the `ValueError` of a
failed token acquisition — into an empty result list. -/
def download_emails (cfg : Cfg) (includeFolders includeArchive : Bool)
    (env : RunEnv) (fuel : Nat) : List String :=
  match download_via_graph_api cfg includeFolders includeArchive env fuel with
  | .ok files => files
  | .error _ => []

/-- `main` of `mail_downloader_graph.py:665`: constructing the downloader
validates the configuration, and a `ValueError` there reaches the
top-level handler, which calls `sys.exit(1)`; otherwise `download_emails`
never raises, the summary is printed and the process ends with exit
code 0 whether or not any file was downloaded. -/
def mainExitCode (s : Settings) (cfg : Cfg) (includeFolders includeArchive : Bool)
    (env : RunEnv) (fuel : Nat) : Nat :=
  match _validate_config s with
  | .error _ => 1
  | .ok _ =>
    let _files := download_emails cfg includeFolders includeArchive env fuel
    0

/-- One entry of a message's `attachments` list, as far as
`_download_pdf_attachments` inspects it. -/
structure Attachment where
  name : String
  contentType : Option String
  id : Option String
  deriving DecidableEq, Repr

/-- The filter `att.get('contentType') and
att.get('contentType', '').lower() == 'application/pdf'`
(`mail_downloader_graph.py:593`). -/
def isPdfAttachment (a : Attachment) : Bool :=
  match a.contentType with
  | none => false
  | some ct => decide (ct ≠ "") && decide (strToLower ct = "application/pdf")

/-- The attachment file name built at `mail_downloader_graph.py:616`:
sanitize the attachment name, append `.pdf` unless it already ends with
it (case-insensitively), and prefix the timestamp and folder. -/
def pdfFileName (date_str folder_name : String) (a : Attachment) : String :=
  let safe := sanitize_filename a.name
  let safe := if strEndsWith (strToLower safe) ".pdf" then safe else safe ++ ".pdf"
  date_str ++ "--[" ++ folder_name ++ "]--" ++ safe

/-- One iteration body of the `for attachment in pdf_attachments` loop
of `_download_pdf_attachments` (`mail_downloader_graph.py:600`): skip an
attachment whose own id or whose message's id is falsy, skip an id
already in `seen_pdf_attachment_ids`, otherwise download the content
(`download eid aid`, where `none` models a raised-and-caught error and
`[]` a falsy empty payload) and, when the content is truthy, write the
file; only after a successful write (a raising write is modelled by
`writeOk` returning `false`, caught by the per-attachment handler) is
the id added to the seen set and the path recorded.  Every failure mode
leaves the seen set unchanged. -/
def pdfStep (download : String → String → Option (List Nat))
    (writeOk : String → Bool) (emailId : Option String)
    (date_str folder_name : String) (seen : List String)
    (a : Attachment) : List String × List String :=
  match a.id, emailId with
  | some aid, some eid =>
    if ¬ (optTruthy a.id ∧ optTruthy emailId) then (seen, [])
    else if aid ∈ seen then (seen, [])
    else
      match download eid aid with
      | some content =>
        if content ≠ [] then
          if writeOk (pdfFileName date_str folder_name a) then
            (aid :: seen, [pdfFileName date_str folder_name a])
          else (seen, [])
        else (seen, [])
      | none => (seen, [])
  | _, _ => (seen, [])

/-- The `for attachment in pdf_attachments` loop: iterate `pdfStep` over
the attachments, threading the seen set and collecting the written
paths; a failing attachment never stops the loop. -/
def downloadPdfLoop (download : String → String → Option (List Nat))
    (writeOk : String → Bool) (emailId : Option String)
    (date_str folder_name : String) :
    List Attachment → List String → List String × List String
  | [], seen => (seen, [])
  | a :: rest, seen =>
    let step := pdfStep download writeOk emailId date_str folder_name seen a
    let r := downloadPdfLoop download writeOk emailId date_str folder_name rest step.1
    (r.1, step.2 ++ r.2)

/-- The full success condition under which `_download_pdf_attachments`
marks attachment id `aid` as seen via attachment `a`: both ids are
truthy, `a` carries exactly that id, the downloaded payload is truthy,
and the write succeeds. -/
def attachmentFetchOk (download : String → String → Option (List Nat))
    (writeOk : String → Bool) (emailId : Option String)
    (date_str folder_name : String) (aid : String) (a : Attachment) : Prop :=
  a.id = some aid ∧ optTruthy a.id = true ∧ optTruthy emailId = true ∧
  (∃ eid, emailId = some eid ∧ ∃ bs, download eid aid = some bs ∧ bs ≠ []) ∧
  writeOk (pdfFileName date_str folder_name a) = true

/-- `MailDownloaderGraph._download_pdf_attachments`
(`mail_downloader_graph.py:583`): filter the message's attachments down
to PDFs and run the download loop over them against the run-scoped
`seen_pdf_attachment_ids`. -/
def _download_pdf_attachments (download : String → String → Option (List Nat))
    (writeOk : String → Bool) (emailId : Option String)
    (date_str folder_name : String) (attachments : List Attachment)
    (seen : List String) : List String × List String :=
  downloadPdfLoop download writeOk emailId date_str folder_name
    (attachments.filter isPdfAttachment) seen

end MailDownloaderGraph

/-! ## Verification predicates and fixtures -/

/-- Whether the list contains two adjacent characters satisfying `p`
(used with underscores for `sanitize_filename` and spaces for the body
normalization). -/
def hasAdj (p : Char → Bool) : List Char → Bool
  | [] => false
  | [_] => false
  | c :: d :: cs => (p c && p d) || hasAdj p (d :: cs)

/-- No character of the list is one of the filename-invalid characters. -/
def noInvalid (l : List Char) : Prop := ∀ c ∈ l, c ∉ invalidChars

/-- Whether a complete match of the pattern `<[^>]+>` starts at the head
of the list: a `<`, at least one non-`>` character, then a `>` (the
first `>` after the head closes the nonempty run of non-`>`
characters). -/
def isTagAt : List Char → Bool
  | c :: d :: rest => decide (c = '<') && decide (d ≠ '>') && (d :: rest).contains '>'
  | _ => false

/-- Whether a complete HTML tag (a match of `<[^>]+>`) occurs anywhere
in the list. -/
def hasTag : List Char → Bool
  | [] => false
  | c :: cs => isTagAt (c :: cs) || hasTag cs

/-- Boolean test for the underscore character. -/
def isUnderscore (c : Char) : Bool := c = '_'

/-! ## General lemmas about the string primitives -/

theorem hasAdj_cons_false {p : Char → Bool} {c : Char} {cs : List Char}
    (h : hasAdj p (c :: cs) = false) : hasAdj p cs = false := by
  cases cs with
  | nil => rfl
  | cons d ds =>
    unfold hasAdj at h
    simp only [Bool.or_eq_false_iff] at h
    exact h.2

theorem hasAdj_append_right {p : Char → Bool} {u v : List Char}
    (h : hasAdj p (u ++ v) = false) : hasAdj p v = false := by
  induction u with
  | nil => exact h
  | cons c u ih => exact ih (hasAdj_cons_false h)

theorem hasAdj_append_left {p : Char → Bool} {u v : List Char}
    (h : hasAdj p (u ++ v) = false) : hasAdj p u = false := by
  induction u with
  | nil => rfl
  | cons c u ih =>
    cases u with
    | nil => rfl
    | cons d u2 =>
      simp only [List.cons_append, hasAdj, Bool.or_eq_false_iff] at h ⊢
      exact ⟨h.1, ih h.2⟩

theorem hasAdj_of_within {p : Char → Bool} {u v : List Char}
    (huv : u <:+: v) (h : hasAdj p v = false) : hasAdj p u = false := by
  obtain ⟨s, t, hv⟩ := huv
  subst hv
  rw [List.append_assoc] at h
  exact hasAdj_append_left (hasAdj_append_right h)

theorem pyStrip_eq_rdrop (l : List Char) :
    pyStrip l = (l.dropWhile pyIsSpace).rdropWhile pyIsSpace := rfl

theorem pyStrip_within (l : List Char) : pyStrip l <:+: l :=
  (List.rdropWhile_prefix pyIsSpace (l.dropWhile pyIsSpace)).isInfix.trans
    (List.dropWhile_suffix pyIsSpace).isInfix

theorem pyStrip_dropWhile_self (l : List Char) :
    (pyStrip l).dropWhile pyIsSpace = pyStrip l := by
  rw [List.dropWhile_eq_self_iff]
  intro hl
  have hpre := List.rdropWhile_prefix pyIsSpace (l.dropWhile pyIsSpace)
  have hlen : 0 < (l.dropWhile pyIsSpace).length :=
    lt_of_lt_of_le hl hpre.length_le
  have hget0 := hpre.getElem
    (show (0 : Nat) < ((l.dropWhile pyIsSpace).rdropWhile pyIsSpace).length from hl)
  have hget : (pyStrip l).get ⟨0, hl⟩ = (l.dropWhile pyIsSpace).get ⟨0, hlen⟩ := by
    simp only [List.get_eq_getElem]
    exact hget0
  rw [hget]
  exact List.dropWhile_get_zero_not pyIsSpace l hlen

theorem pyStrip_idem (l : List Char) : pyStrip (pyStrip l) = pyStrip l := by
  rw [pyStrip_eq_rdrop (pyStrip l), pyStrip_dropWhile_self, pyStrip_eq_rdrop l,
    List.rdropWhile_idempotent]

theorem noInvalid_replaceInvalid (l : List Char) : noInvalid (replaceInvalid l) := by
  intro c hc
  simp only [replaceInvalid, List.mem_map] at hc
  obtain ⟨a, -, ha⟩ := hc
  by_cases hmem : a ∈ invalidChars
  · rw [if_pos hmem] at ha
    subst ha
    decide
  · rw [if_neg hmem] at ha
    subst ha
    exact hmem

theorem replaceInvalid_eq_self {l : List Char} (h : noInvalid l) :
    replaceInvalid l = l := by
  induction l with
  | nil => rfl
  | cons c cs ih =>
    have hc : c ∉ invalidChars := h c (List.mem_cons_self c cs)
    have hcs : replaceInvalid cs = cs := ih fun d hd => h d (List.mem_cons_of_mem c hd)
    simp only [replaceInvalid, List.map_cons, if_neg hc] at *
    rw [hcs]

theorem cUAux_head_ne (l : List Char) :
    ∀ d ds, collapseUnderscoresAux l true = d :: ds → d ≠ '_' := by
  induction l with
  | nil => intro d ds h; simp [collapseUnderscoresAux] at h
  | cons c cs ih =>
    intro d ds h
    by_cases hc : c = '_'
    · rw [collapseUnderscoresAux, if_pos hc, if_pos rfl] at h
      exact ih d ds h
    · rw [collapseUnderscoresAux, if_neg hc] at h
      rw [← (List.cons_eq_cons.mp h).1]
      exact hc

theorem cUAux_noAdj (l : List Char) : ∀ b : Bool,
    hasAdj isUnderscore (collapseUnderscoresAux l b) = false := by
  induction l with
  | nil => intro b; rfl
  | cons c cs ih =>
    intro b
    by_cases hc : c = '_'
    · cases b with
      | true =>
        rw [collapseUnderscoresAux, if_pos hc, if_pos rfl]
        exact ih true
      | false =>
        rw [collapseUnderscoresAux, if_pos hc, if_neg (by decide)]
        rcases hx : collapseUnderscoresAux cs true with _ | ⟨d, ds⟩
        · rfl
        · have hd : isUnderscore d = false := by
            have := cUAux_head_ne cs d ds hx
            simpa [isUnderscore] using this
          have := ih true
          rw [hx] at this
          simp [hasAdj, hd, this]
    · rw [collapseUnderscoresAux, if_neg hc]
      rcases hx : collapseUnderscoresAux cs false with _ | ⟨d, ds⟩
      · rfl
      · have hcU : isUnderscore c = false := by simpa [isUnderscore] using hc
        have := ih false
        rw [hx] at this
        simp [hasAdj, hcU, this]

theorem cUAux_sub (l : List Char) : ∀ b : Bool,
    ∀ c ∈ collapseUnderscoresAux l b, c ∈ l ∨ c = '_' := by
  induction l with
  | nil => intro b c hc; simp [collapseUnderscoresAux] at hc
  | cons a cs ih =>
    intro b c hc
    by_cases ha : a = '_'
    · cases b with
      | true =>
        rw [collapseUnderscoresAux, if_pos ha, if_pos rfl] at hc
        rcases ih true c hc with h | h
        · exact Or.inl (List.mem_cons_of_mem a h)
        · exact Or.inr h
      | false =>
        rw [collapseUnderscoresAux, if_pos ha, if_neg (by decide)] at hc
        rcases List.mem_cons.mp hc with h | h
        · exact Or.inr h
        · rcases ih true c h with h2 | h2
          · exact Or.inl (List.mem_cons_of_mem a h2)
          · exact Or.inr h2
    · rw [collapseUnderscoresAux, if_neg ha] at hc
      rcases List.mem_cons.mp hc with h | h
      · exact Or.inl (h ▸ List.mem_cons_self a cs)
      · rcases ih false c h with h2 | h2
        · exact Or.inl (List.mem_cons_of_mem a h2)
        · exact Or.inr h2

theorem cUAux_eq_self {l : List Char} (h : hasAdj isUnderscore l = false) :
    ∀ b : Bool, (b = true → l.head? ≠ some '_') → collapseUnderscoresAux l b = l := by
  induction l with
  | nil => intro b _; rfl
  | cons c cs ih =>
    intro b hb
    by_cases hc : c = '_'
    · cases b with
      | true => exact absurd (by rw [List.head?_cons, hc]) (hb rfl)
      | false =>
        rw [collapseUnderscoresAux, if_pos hc, if_neg (by decide)]
        have hcs : collapseUnderscoresAux cs true = cs := by
          refine ih (hasAdj_cons_false h) true fun _ => ?_
          rcases cs with _ | ⟨d, ds⟩
          · simp
          · intro hd
            rw [List.head?_cons, Option.some_inj] at hd
            rw [hc, hd] at h
            simp [hasAdj, isUnderscore] at h
        rw [hcs, hc]
    · rw [collapseUnderscoresAux, if_neg hc]
      rw [ih (hasAdj_cons_false h) false (by simp)]

theorem sanitizeChars_twice (cap : Nat) (l : List Char) :
    sanitizeChars cap (sanitizeChars cap l) = pyStrip (sanitizeChars cap l) := by
  have hNoInv : noInvalid (sanitizeChars cap l) := by
    intro c hc
    have hc1 : c ∈ pyStrip (collapseUnderscores (replaceInvalid l)) :=
      List.take_subset _ _ hc
    have hc2 := (pyStrip_within (collapseUnderscores (replaceInvalid l))).subset hc1
    rcases cUAux_sub (replaceInvalid l) false c hc2 with h1 | h1
    · exact noInvalid_replaceInvalid l c h1
    · subst h1; decide
  have hNoAdj : hasAdj isUnderscore (sanitizeChars cap l) = false := by
    have h1 := cUAux_noAdj (replaceInvalid l) false
    have h2 := hasAdj_of_within (pyStrip_within (collapseUnderscores (replaceInvalid l))) h1
    exact hasAdj_of_within (List.take_prefix cap _).isInfix h2
  show (pyStrip (collapseUnderscores (replaceInvalid (sanitizeChars cap l)))).take cap =
    pyStrip (sanitizeChars cap l)
  rw [replaceInvalid_eq_self hNoInv]
  unfold collapseUnderscores
  rw [cUAux_eq_self hNoAdj false (by simp)]
  have hlen : (pyStrip (sanitizeChars cap l)).length ≤ cap :=
    le_trans (pyStrip_within (sanitizeChars cap l)).length_le (List.length_take_le ..)
  exact List.take_of_length_le hlen

theorem drop_takeWhile_length (p : Char → Bool) (l : List Char) :
    l.drop (l.takeWhile p).length = l.dropWhile p := by
  calc l.drop (l.takeWhile p).length
      = (l.takeWhile p ++ l.dropWhile p).drop (l.takeWhile p).length := by
        rw [List.takeWhile_append_dropWhile]
    _ = l.dropWhile p := List.drop_left _ _

theorem dropWhile_head_false {p : Char → Bool} : ∀ {cs : List Char} {d : Char} {ds : List Char},
    cs.dropWhile p = d :: ds → p d = false := by
  intro cs
  induction cs with
  | nil => intro d ds h; cases h
  | cons a as ih =>
    intro d ds h
    rw [List.dropWhile_cons] at h
    by_cases hp : p a
    · rw [if_pos hp] at h
      exact ih h
    · rw [if_neg hp] at h
      rw [← (List.cons_eq_cons.mp h).1]
      simpa using hp

theorem isTagAt_false_of_ne {c : Char} (hc : ¬c = '<') (cs : List Char) :
    isTagAt (c :: cs) = false := by
  cases cs with
  | nil => rfl
  | cons d ds => simp [isTagAt, hc]

theorem isTagAt_false_of_no_gt {c : Char} {cs : List Char}
    (h : ∀ x ∈ cs, x ≠ '>') : isTagAt (c :: cs) = false := by
  cases cs with
  | nil => rfl
  | cons d ds =>
    simp only [isTagAt]
    simp only [Bool.and_eq_false_iff]
    right
    simp only [List.contains_eq_any_beq, List.any_eq_false]
    intro x hx
    simpa using fun hxx => h x hx (by simpa using hxx.symm)

theorem findTagEnd_length_le {cs rest : List Char}
    (h : findTagEnd cs = some rest) : rest.length ≤ cs.length := by
  unfold findTagEnd at h
  split at h
  · cases h
  · rw [drop_takeWhile_length] at h
    rcases hdw : cs.dropWhile (fun c => c ≠ '>') with _ | ⟨d, ds⟩
    · rw [hdw] at h; cases h
    · rw [hdw] at h
      have hd : d = '>' := by
        have := dropWhile_head_false hdw
        simpa using this
      subst hd
      have h2 : some ds = some rest := h
      have hds : ds = rest := Option.some_inj.mp h2
      have hsub : (('>' : Char) :: ds).Sublist cs :=
        hdw ▸ (List.dropWhile_suffix (fun c => c ≠ '>')).sublist
      have hlen := hsub.length_le
      simp only [List.length_cons] at hlen
      rw [← hds]
      omega

/-- On a list with no `>`, the tag scanner changes nothing. -/
theorem removeTagsFuel_no_gt : ∀ (n : Nat) (l : List Char),
    (∀ c ∈ l, c ≠ '>') → removeTagsFuel n l = l := by
  intro n
  induction n with
  | zero => intro l _; rfl
  | succ m ih =>
    intro l hl
    cases l with
    | nil => rfl
    | cons c cs =>
      have hcs : ∀ d ∈ cs, d ≠ '>' := fun d hd => hl d (List.mem_cons_of_mem c hd)
      by_cases hc : c = '<'
      · have htw : cs.takeWhile (fun d => d ≠ '>') = cs := by
          rw [List.takeWhile_eq_self_iff]
          intro d hd
          simpa using hcs d hd
        have hft : findTagEnd cs = none := by
          unfold findTagEnd
          by_cases he : (cs.takeWhile (fun d => decide (d ≠ '>'))).isEmpty
          · rw [if_pos he]
          · rw [if_neg he]
            rw [show (cs.takeWhile (fun d => decide (d ≠ '>'))) = cs from htw,
              List.drop_length]
        simp only [removeTagsFuel, if_pos hc, hft]
        rw [ih cs hcs]
      · simp only [removeTagsFuel, if_neg hc]
        rw [ih cs hcs]

/-- On a list with no `>`, no complete tag occurs. -/
theorem hasTag_eq_false_of_no_gt : ∀ l : List Char,
    (∀ c ∈ l, c ≠ '>') → hasTag l = false := by
  intro l
  induction l with
  | nil => intro _; rfl
  | cons c cs ih =>
    intro hl
    have hcs : ∀ d ∈ cs, d ≠ '>' := fun d hd => hl d (List.mem_cons_of_mem c hd)
    rw [hasTag, ih hcs, Bool.or_false]
    exact isTagAt_false_of_no_gt hcs

/-- Characterization of a failed tag match: the remainder after `<` is
empty, starts with `>`, or contains no `>` at all. -/
theorem findTagEnd_eq_none {cs : List Char} (h : findTagEnd cs = none) :
    cs = [] ∨ (∃ cs2, cs = '>' :: cs2) ∨ (∀ c ∈ cs, c ≠ '>') := by
  unfold findTagEnd at h
  split at h
  · rename_i he
    cases cs with
    | nil => exact Or.inl rfl
    | cons d ds =>
      by_cases hd : d = '>'
      · exact Or.inr (Or.inl ⟨ds, by rw [hd]⟩)
      · exfalso
        rw [List.takeWhile_cons, if_pos (by simpa using hd)] at he
        simp [List.isEmpty] at he
  · rw [drop_takeWhile_length] at h
    right; right
    rcases hdw : cs.dropWhile (fun c => c ≠ '>') with _ | ⟨d, ds⟩
    · intro c hc
      have := List.dropWhile_eq_nil_iff.mp hdw c hc
      simpa using this
    · exfalso
      have hd : d = '>' := by
        have := dropWhile_head_false hdw
        simpa using this
      rw [hdw, hd] at h
      cases h

/-- The central safety-net property: after the tag-removal pass of the
Graph normalizer, no complete match of `<[^>]+>` remains anywhere in
the text. -/
theorem hasTag_removeTagsFuel : ∀ (n : Nat) (l : List Char),
    l.length ≤ n → hasTag (removeTagsFuel n l) = false := by
  intro n
  induction n using Nat.strong_induction_on with
  | _ n ih =>
    intro l hl
    cases l with
    | nil => cases n <;> rfl
    | cons c cs =>
      cases n with
      | zero => simp at hl
      | succ m =>
        have hm : cs.length ≤ m := by simpa using hl
        have hmlt : m < m + 1 := Nat.lt_succ_self m
        by_cases hc : c = '<'
        · rcases hft : findTagEnd cs with _ | rest
          · simp only [removeTagsFuel, if_pos hc, hft]
            rcases findTagEnd_eq_none hft with hnil | ⟨cs2, hcs2⟩ | hno
            · subst hnil
              cases m <;> simp [removeTagsFuel, hasTag, isTagAt]
            · subst hcs2
              cases m with
              | zero => simp at hm
              | succ m2 =>
                simp only [removeTagsFuel, if_neg (by decide : ¬('>' : Char) = '<')]
                have hT := ih m2 (by omega) cs2 (by simpa using hm)
                have e1 : isTagAt (c :: '>' :: removeTagsFuel m2 cs2) = false := by
                  simp [isTagAt]
                have e2 : isTagAt ('>' :: removeTagsFuel m2 cs2) = false :=
                  isTagAt_false_of_ne (by decide) _
                rw [hasTag, hasTag, hT, e1, e2]
                rfl
            · rw [removeTagsFuel_no_gt m cs hno]
              rw [hasTag, hasTag_eq_false_of_no_gt cs hno, Bool.or_false]
              exact isTagAt_false_of_no_gt hno
          · simp only [removeTagsFuel, if_pos hc, hft]
            exact ih m hmlt rest (le_trans (findTagEnd_length_le hft) hm)
        · simp only [removeTagsFuel, if_neg hc]
          rw [hasTag, ih m hmlt cs hm, Bool.or_false]
          exact isTagAt_false_of_ne hc _

theorem cWsAux_mem {c : Char} (hc : pyIsSpace c = false) :
    ∀ (l : List Char) (b : Bool), c ∈ l → c ∈ collapseWsAux l b := by
  intro l
  induction l with
  | nil => intro b h; cases h
  | cons a as ih =>
    intro b h
    by_cases ha : pyIsSpace a
    · have hmem : c ∈ as := by
        rcases List.mem_cons.mp h with h1 | h1
        · exact absurd (h1 ▸ ha) (by simp [hc])
        · exact h1
      rw [collapseWsAux, if_pos ha]
      cases b with
      | true => rw [if_pos rfl]; exact ih true hmem
      | false =>
        rw [if_neg (by decide)]
        exact List.mem_cons_of_mem _ (ih true hmem)
    · rw [collapseWsAux, if_neg ha]
      rcases List.mem_cons.mp h with h1 | h1
      · exact h1 ▸ List.mem_cons_self a _
      · exact List.mem_cons_of_mem a (ih false h1)

theorem cWsAux_ws_eq_space : ∀ (l : List Char) (b : Bool),
    ∀ c ∈ collapseWsAux l b, pyIsSpace c = true → c = ' ' := by
  intro l
  induction l with
  | nil => intro b c hc _; cases hc
  | cons a as ih =>
    intro b c hc hws
    by_cases ha : pyIsSpace a
    · rw [collapseWsAux, if_pos ha] at hc
      cases b with
      | true => rw [if_pos rfl] at hc; exact ih true c hc hws
      | false =>
        rw [if_neg (by decide)] at hc
        rcases List.mem_cons.mp hc with h1 | h1
        · exact h1
        · exact ih true c h1 hws
    · rw [collapseWsAux, if_neg ha] at hc
      rcases List.mem_cons.mp hc with h1 | h1
      · exact absurd (h1 ▸ hws) (by simp [ha])
      · exact ih false c h1 hws

theorem cWsAux_no_nl (l : List Char) (b : Bool) : '\n' ∉ collapseWsAux l b := by
  intro hmem
  have := cWsAux_ws_eq_space l b '\n' hmem (by decide)
  exact absurd this (by decide)

theorem cWsAux_head_true (l : List Char) :
    ∀ d ds, collapseWsAux l true = d :: ds → pyIsSpace d = false := by
  induction l with
  | nil => intro d ds h; cases h
  | cons a as ih =>
    intro d ds h
    by_cases ha : pyIsSpace a
    · rw [collapseWsAux, if_pos ha, if_pos rfl] at h
      exact ih d ds h
    · rw [collapseWsAux, if_neg ha] at h
      rw [← (List.cons_eq_cons.mp h).1]
      simpa using ha

theorem cWsAux_noAdj (l : List Char) : ∀ b : Bool,
    hasAdj pyIsSpace (collapseWsAux l b) = false := by
  induction l with
  | nil => intro b; rfl
  | cons a as ih =>
    intro b
    by_cases ha : pyIsSpace a
    · cases b with
      | true =>
        rw [collapseWsAux, if_pos ha, if_pos rfl]
        exact ih true
      | false =>
        rw [collapseWsAux, if_pos ha, if_neg (by decide)]
        rcases hx : collapseWsAux as true with _ | ⟨d, ds⟩
        · rfl
        · have hd : pyIsSpace d = false := cWsAux_head_true as d ds hx
          have hT := ih true
          rw [hx] at hT
          simp [hasAdj, hd, hT]
    · rw [collapseWsAux, if_neg ha]
      rcases hx : collapseWsAux as false with _ | ⟨d, ds⟩
      · rfl
      · have hT := ih false
        rw [hx] at hT
        simp [hasAdj, ha, hT]

theorem collapseNlFuel_no_nl : ∀ (n : Nat) (l : List Char),
    '\n' ∉ l → collapseNlFuel n l = l := by
  intro n
  induction n with
  | zero => intro l _; rfl
  | succ m ih =>
    intro l hl
    cases l with
    | nil => rfl
    | cons c cs =>
      have hc : ¬c = '\n' := fun h => hl (h ▸ List.mem_cons_self c cs)
      simp only [collapseNlFuel, if_neg hc]
      rw [ih cs fun h => hl (List.mem_cons_of_mem c h)]

theorem collapseNewlines_no_nl {l : List Char} (h : '\n' ∉ l) :
    collapseNewlines l = l :=
  collapseNlFuel_no_nl l.length l h

theorem splitNl_no_nl {l : List Char} (h : '\n' ∉ l) : splitNl l = [l] := by
  induction l with
  | nil => rfl
  | cons c cs ih =>
    have hc : ¬c = '\n' := fun hcc => h (hcc ▸ List.mem_cons_self c cs)
    rw [splitNl, if_neg hc, ih fun hm => h (List.mem_cons_of_mem c hm)]

theorem perLineStrip_no_nl {l : List Char} (h : '\n' ∉ l) :
    perLineStrip l = pyStrip l := by
  unfold perLineStrip
  rw [splitNl_no_nl h]
  simp [List.intercalate]

theorem mem_dropWhile_of_mem {p : Char → Bool} {c : Char} (hc : p c = false) :
    ∀ l : List Char, c ∈ l → c ∈ l.dropWhile p := by
  intro l
  induction l with
  | nil => intro h; cases h
  | cons a as ih =>
    intro h
    rw [List.dropWhile_cons]
    by_cases ha : p a
    · rw [if_pos ha]
      rcases List.mem_cons.mp h with h1 | h1
      · exact absurd (h1 ▸ ha) (by simp [hc])
      · exact ih h1
    · rw [if_neg ha]
      exact h

theorem mem_pyStrip_of_mem {c : Char} (hc : pyIsSpace c = false)
    {l : List Char} (h : c ∈ l) : c ∈ pyStrip l := by
  have h1 : c ∈ l.dropWhile pyIsSpace := mem_dropWhile_of_mem hc l h
  have h2 : c ∈ (l.dropWhile pyIsSpace).reverse := List.mem_reverse.mpr h1
  have h3 := mem_dropWhile_of_mem hc _ h2
  exact List.mem_reverse.mpr h3

theorem collapseWs_no_nl (l : List Char) : '\n' ∉ collapseWs l :=
  cWsAux_no_nl l false

theorem collapseWs_noAdj (l : List Char) : hasAdj pyIsSpace (collapseWs l) = false :=
  cWsAux_noAdj l false

theorem collapseWs_mem {c : Char} (hc : pyIsSpace c = false) {l : List Char}
    (h : c ∈ l) : c ∈ collapseWs l :=
  cWsAux_mem hc l false h

/-! ## Claim C5 -/

/-- C5 (corrected): the two download paths differ.  In the Graph path
the second-pass tag strip guarantees that, whatever the body-type
marking, no complete HTML tag (match of `<[^>]+>`) survives the
tag-removal pass of `extract_text_from_email`, for every input text.
In the EWS path there is no such pass: the body is converted only when
the backend marks it `text/html`, and a body containing HTML markup but
marked plain text keeps its markup in the record file — every `<` of
the body survives to the output. -/
theorem claim_C5_amended :
    (∀ l : List Char, hasTag (removeTags l) = false) ∧
    (∀ (handle : String → String) (content ctype : String),
      strStartsWith ctype "text/html" = false → '<' ∈ content.data →
      '<' ∈ (MailDownloader.extract_text_from_email handle content ctype).data) := by
  constructor
  · intro l
    exact hasTag_removeTagsFuel l.length l le_rfl
  · intro handle content ctype hct hmem
    have he : (MailDownloader.extract_text_from_email handle content ctype).data =
        collapseNewlines (collapseWs (pyStrip
          (if strStartsWith ctype "text/html" then handle content else content).data)) := rfl
    rw [he, if_neg (by simp [hct]), collapseNewlines_no_nl (collapseWs_no_nl _)]
    exact collapseWs_mem (by decide) (mem_pyStrip_of_mem (by decide) hmem)

/-- C5 witness: instantiating the amended claim.  The Graph tag strip
leaves no tag in `<p>Hello</p>`, and the EWS path keeps the `<` of a
plain-marked body. -/
theorem claim_C5_witness :
    hasTag (removeTags ("<p>Hello</p>".data)) = false ∧
    '<' ∈ (MailDownloader.extract_text_from_email (fun _ => "")
      "<p>Hello</p>" "text/plain").data :=
  ⟨claim_C5_amended.1 _,
    claim_C5_amended.2 (fun _ => "") "<p>Hello</p>" "text/plain" (by decide) (by decide)⟩

/-- C5 counterexample: the raw body `<p>Hello</p>` delivered with the
body-type marking `text/plain` is written by the EWS path with its
markup intact — the output still contains the complete tag `<p>` — so
the claim that HTML never leaks through unconverted in both paths is
false on the EWS path. -/
theorem claim_C5_counterexample :
    hasTag (MailDownloader.extract_text_from_email (fun _ => "")
      "<p>Hello</p>" "text/plain").data = true ∧
    MailDownloader.extract_text_from_email (fun _ => "")
      "<p>Hello</p>" "text/plain" = "<p>Hello</p>" := by
  constructor
  · decide
  · decide

/-! ## Claim C6 -/

set_option maxHeartbeats 1000000 in
/-- C6 (corrected): the whitespace normalization of
`extract_text_from_email` does not preserve paragraph breaks: the first
substitution `\s+` → single space already collapses every whitespace
run, newlines included, so the output of either variant is a single
line — it contains no newline at all and no two adjacent whitespace
characters — and the later blank-line collapse and per-line trim are
no-ops on it; the Graph variant's final per-line strip reduces to one
plain `strip`, so its output additionally carries no leading or
trailing whitespace. -/
theorem claim_C6_amended (handle : String → String) (content ctype : String) :
    ('\n' ∉ (MailDownloader.extract_text_from_email handle content ctype).data ∧
      hasAdj pyIsSpace (MailDownloader.extract_text_from_email handle content ctype).data = false) ∧
    ('\n' ∉ (MailDownloaderGraph.extract_text_from_email handle content ctype).data ∧
      hasAdj pyIsSpace (MailDownloaderGraph.extract_text_from_email handle content ctype).data = false ∧
      pyStrip (MailDownloaderGraph.extract_text_from_email handle content ctype).data =
        (MailDownloaderGraph.extract_text_from_email handle content ctype).data) := by
  have he : (MailDownloader.extract_text_from_email handle content ctype).data =
      collapseNewlines (collapseWs (pyStrip
        (if strStartsWith ctype "text/html" then handle content else content).data)) := rfl
  have hg : (MailDownloaderGraph.extract_text_from_email handle content ctype).data =
      perLineStrip (collapseNewlines (collapseWs (pyUnescape (removeTags (pyStrip
        (if strStartsWith ctype "text/html" then handle content else content).data))))) := rfl
  constructor
  · rw [he, collapseNewlines_no_nl (collapseWs_no_nl _)]
    exact ⟨collapseWs_no_nl _, collapseWs_noAdj _⟩
  · rw [hg, collapseNewlines_no_nl (collapseWs_no_nl _), perLineStrip_no_nl (collapseWs_no_nl _)]
    exact ⟨fun hmem => collapseWs_no_nl _ ((pyStrip_within _).subset hmem),
      hasAdj_of_within (pyStrip_within _) (collapseWs_noAdj _), pyStrip_idem _⟩

/-- C6 counterexample: the body `a⏎⏎⏎b` — a paragraph break of three
newlines — normalizes to the single line `a b` in both variants, not to
`a⏎⏎b` with one blank line as the claim requires, so runs of three or
more newlines are not collapsed to a blank line and paragraph breaks
are not preserved. -/
theorem claim_C6_counterexample :
    MailDownloaderGraph.extract_text_from_email id "a\n\n\nb" "text/plain" = "a b" ∧
    MailDownloader.extract_text_from_email id "a\n\n\nb" "text/plain" = "a b" ∧
    ("a b" : String) ≠ "a\n\nb" := by
  refine ⟨by decide, by decide, by decide⟩

/-! ## Claim C10 -/

/-- C10 (corrected): `sanitize_filename` is not idempotent in general,
but applying it a second time only strips whitespace from the ends of
the first result: for every input string,
`sanitize_filename (sanitize_filename s)` equals the Python `strip()` of
`sanitize_filename s`, in both the EWS variant (100-character cap) and
the Graph variant (50-character cap).  Consequently the function is
idempotent exactly on inputs whose sanitized form carries no outer
whitespace; outer whitespace can survive only via the length cap, which
runs after the strip and can cut the string right after an interior
space. -/
theorem claim_C10_amended (s : String) :
    MailDownloader.sanitize_filename (MailDownloader.sanitize_filename s) =
      String.mk (pyStrip (MailDownloader.sanitize_filename s).data) ∧
    MailDownloaderGraph.sanitize_filename (MailDownloaderGraph.sanitize_filename s) =
      String.mk (pyStrip (MailDownloaderGraph.sanitize_filename s).data) := by
  constructor
  · show String.mk (sanitizeChars 100 (sanitizeChars 100 s.data)) = _
    rw [sanitizeChars_twice]
    rfl
  · show String.mk (sanitizeChars 50 (sanitizeChars 50 s.data)) = _
    rw [sanitizeChars_twice]
    rfl

/-- C10 counterexample: on the 101-character input `aaa…a b` (99 `a`s,
a space, then `b`) the 100-character cap of the EWS
`sanitize_filename` truncates right after the interior space, so the
first application ends in whitespace and the second application strips
it; the corresponding 51-character input refutes the Graph variant.
Hence `sanitize_filename (sanitize_filename s) ≠ sanitize_filename s`:
the function is not idempotent as claimed. -/
theorem claim_C10_counterexample :
    MailDownloader.sanitize_filename (MailDownloader.sanitize_filename
        (String.mk (List.replicate 99 'a' ++ [' ', 'b']))) ≠
      MailDownloader.sanitize_filename (String.mk (List.replicate 99 'a' ++ [' ', 'b'])) ∧
    MailDownloaderGraph.sanitize_filename (MailDownloaderGraph.sanitize_filename
        (String.mk (List.replicate 49 'a' ++ [' ', 'b']))) ≠
      MailDownloaderGraph.sanitize_filename (String.mk (List.replicate 49 'a' ++ [' ', 'b'])) := by
  constructor
  · decide
  · decide

/-! ## Claim C9 -/

namespace MailDownloaderGraph

theorem pdfStep_seen_iff (download : String → String → Option (List Nat))
    (writeOk : String → Bool) (emailId : Option String)
    (date_str folder_name : String) (seen : List String) (a : Attachment)
    (aid : String) :
    aid ∈ (pdfStep download writeOk emailId date_str folder_name seen a).1 ↔
      aid ∈ seen ∨ attachmentFetchOk download writeOk emailId date_str folder_name aid a := by
  rcases hid : a.id with _ | x
  · simp [pdfStep, attachmentFetchOk, hid]
  · rcases emailId with _ | e
    · simp [pdfStep, attachmentFetchOk, hid, optTruthy]
    · by_cases hx : x = ""
      · have hstep : pdfStep download writeOk (some e) date_str folder_name seen a = (seen, []) := by
          simp [pdfStep, hid, optTruthy, hx]
        rw [hstep]
        constructor
        · exact Or.inl
        · rintro (h | h)
          · exact h
          · exact absurd (hid ▸ h.2.1) (by simp [optTruthy, hx])
      · by_cases he : e = ""
        · have hstep : pdfStep download writeOk (some e) date_str folder_name seen a = (seen, []) := by
            simp [pdfStep, hid, optTruthy, he]
          rw [hstep]
          constructor
          · exact Or.inl
          · rintro (h | h)
            · exact h
            · exact absurd h.2.2.1 (by simp [optTruthy, he])
        · by_cases hmem : x ∈ seen
          · have hstep : pdfStep download writeOk (some e) date_str folder_name seen a = (seen, []) := by
              simp [pdfStep, hid, optTruthy, hx, he, hmem]
            rw [hstep]
            constructor
            · exact Or.inl
            · rintro (h | h)
              · exact h
              · obtain ⟨hax, -⟩ := h
                rw [hid, Option.some_inj] at hax
                exact hax ▸ hmem
          · rcases hdl : download e x with _ | content
            · have hstep : pdfStep download writeOk (some e) date_str folder_name seen a = (seen, []) := by
                simp [pdfStep, hid, optTruthy, hx, he, hmem, hdl]
              rw [hstep]
              constructor
              · exact Or.inl
              · rintro (h | h)
                · exact h
                · obtain ⟨hax, -, -, ⟨eid, heq, bs, hbs, -⟩, -⟩ := h
                  rw [hid, Option.some_inj] at hax
                  rw [Option.some_inj] at heq
                  rw [← hax, ← heq, hdl] at hbs
                  cases hbs
            · by_cases hct : content = []
              · have hstep : pdfStep download writeOk (some e) date_str folder_name seen a = (seen, []) := by
                  simp [pdfStep, hid, optTruthy, hx, he, hmem, hdl, hct]
                rw [hstep]
                constructor
                · exact Or.inl
                · rintro (h | h)
                  · exact h
                  · obtain ⟨hax, -, -, ⟨eid, heq, bs, hbs, hbsne⟩, -⟩ := h
                    rw [hid, Option.some_inj] at hax
                    rw [Option.some_inj] at heq
                    rw [← hax, ← heq, hdl, Option.some_inj] at hbs
                    exact absurd (hbs ▸ hct) hbsne
              · by_cases hwr : writeOk (pdfFileName date_str folder_name a) = true
                · have hstep : pdfStep download writeOk (some e) date_str folder_name seen a =
                      (x :: seen, [pdfFileName date_str folder_name a]) := by
                    simp [pdfStep, hid, optTruthy, hx, he, hmem, hdl, hct, hwr]
                  rw [hstep]
                  show aid ∈ x :: seen ↔ _
                  rw [List.mem_cons]
                  constructor
                  · rintro (h | h)
                    · refine Or.inr ⟨by rw [hid, h], ?_, ?_, ⟨e, rfl, content, ?_, hct⟩, hwr⟩
                      · simp [hid, optTruthy, hx]
                      · simp [optTruthy, he]
                      · rw [h]; exact hdl
                    · exact Or.inl h
                  · rintro (h | h)
                    · exact Or.inr h
                    · obtain ⟨hax, -⟩ := h
                      rw [hid, Option.some_inj] at hax
                      exact Or.inl hax.symm
                · have hstep : pdfStep download writeOk (some e) date_str folder_name seen a = (seen, []) := by
                    simp [pdfStep, hid, optTruthy, hx, he, hmem, hdl, hct, hwr]
                  rw [hstep]
                  constructor
                  · exact Or.inl
                  · rintro (h | h)
                    · exact h
                    · exact absurd h.2.2.2.2 hwr

theorem downloadPdfLoop_seen_iff (download : String → String → Option (List Nat))
    (writeOk : String → Bool) (emailId : Option String)
    (date_str folder_name : String) (aid : String) :
    ∀ (l : List Attachment) (seen : List String),
      aid ∈ (downloadPdfLoop download writeOk emailId date_str folder_name l seen).1 ↔
        aid ∈ seen ∨ ∃ a ∈ l, attachmentFetchOk download writeOk emailId date_str folder_name aid a := by
  intro l
  induction l with
  | nil => intro seen; simp [downloadPdfLoop]
  | cons a rest ih =>
    intro seen
    have hfst : (downloadPdfLoop download writeOk emailId date_str folder_name (a :: rest) seen).1 =
        (downloadPdfLoop download writeOk emailId date_str folder_name rest
          (pdfStep download writeOk emailId date_str folder_name seen a).1).1 := rfl
    rw [hfst, ih, pdfStep_seen_iff]
    simp only [List.mem_cons, exists_eq_or_imp]
    tauto

/-- C9 (confirmed): in `_download_pdf_attachments`, an attachment id is
recorded in the run-scoped `seen_pdf_attachment_ids` set exactly when it
was already seen, or some PDF attachment carrying that (truthy) id on a
message with a truthy id had its payload downloaded to a truthy (non
empty) byte string and written successfully.  In particular, when the
download yields no content or any step fails, the id stays unseen — a
later occurrence of the same id is retried — and because the loop folds
over all attachments, the remaining attachments of the message are
still processed and can still succeed. -/
theorem claim_C9_theorem (download : String → String → Option (List Nat))
    (writeOk : String → Bool) (emailId : Option String)
    (date_str folder_name : String) (atts : List Attachment)
    (seen : List String) (aid : String) :
    aid ∈ (MailDownloaderGraph._download_pdf_attachments download writeOk emailId
        date_str folder_name atts seen).1 ↔
      aid ∈ seen ∨ ∃ a ∈ atts, isPdfAttachment a = true ∧
        attachmentFetchOk download writeOk emailId date_str folder_name aid a := by
  unfold MailDownloaderGraph._download_pdf_attachments
  rw [downloadPdfLoop_seen_iff]
  simp only [List.mem_filter]
  tauto

end MailDownloaderGraph

/-! ## Claim C7 -/

/-- C7 (corrected): an authentication failure does not abort the run
and does not produce a non-zero exit.  When the `msal` token acquisition
yields no token, `get_access_token` raises, but the catch-all handler in
`download_emails` swallows the exception and returns an empty list, so
`main` prints the no-downloads message and the process exits with
code 0.  Only configuration-validation failures — which raise before
any download starts and propagate to `main` — terminate the run with
exit code 1. -/
theorem claim_C7_amended (s : MailDownloaderGraph.Settings)
    (cfg : MailDownloaderGraph.Cfg) (iF iA : Bool)
    (env : MailDownloaderGraph.RunEnv) (fuel : Nat)
    (hs : MailDownloaderGraph._validate_config s = Except.ok ())
    (henv : env.msalResult = none) :
    MailDownloaderGraph.download_emails cfg iF iA env fuel = [] ∧
    MailDownloaderGraph.mainExitCode s cfg iF iA env fuel = 0 ∧
    (∀ (s2 : MailDownloaderGraph.Settings) (msg : String),
      MailDownloaderGraph._validate_config s2 = Except.error msg →
      MailDownloaderGraph.mainExitCode s2 cfg iF iA env fuel = 1) := by
  refine ⟨?_, ?_, ?_⟩
  · unfold MailDownloaderGraph.download_emails MailDownloaderGraph.download_via_graph_api
    rw [henv]
    rfl
  · unfold MailDownloaderGraph.mainExitCode
    rw [hs]
  · intro s2 msg h
    unfold MailDownloaderGraph.mainExitCode
    rw [h]

/-- C7 witness: a concrete run with valid settings whose token
acquisition fails downloads nothing and exits 0, while a run with a
missing mail address exits 1. -/
theorem claim_C7_witness :
    MailDownloaderGraph.download_emails ⟨50, true, 100, 0⟩ true true
      ⟨none, fun _ => Except.ok [], [], fun _ => Except.ok [], fun _ => none⟩ 10 = [] ∧
    MailDownloaderGraph.mainExitCode ⟨some "u@example.com", some "cid", some "sec", some "tid"⟩
      ⟨50, true, 100, 0⟩ true true
      ⟨none, fun _ => Except.ok [], [], fun _ => Except.ok [], fun _ => none⟩ 10 = 0 ∧
    MailDownloaderGraph.mainExitCode ⟨none, some "cid", some "sec", some "tid"⟩
      ⟨50, true, 100, 0⟩ true true
      ⟨none, fun _ => Except.ok [], [], fun _ => Except.ok [], fun _ => none⟩ 10 = 1 := by
  have h := claim_C7_amended
    ⟨some "u@example.com", some "cid", some "sec", some "tid"⟩ ⟨50, true, 100, 0⟩ true true
    ⟨none, fun _ => Except.ok [], [], fun _ => Except.ok [], fun _ => none⟩ 10
    rfl rfl
  exact ⟨h.1, h.2.1, h.2.2 ⟨none, some "cid", some "sec", some "tid"⟩
    "EMAIL_ADDRESS muss in .env gesetzt werden" rfl⟩

/-- C7 counterexample: with valid settings but failing authentication,
the run ends with exit code 0 — not the non-zero exit the claim
requires — after reporting an empty download list; the auth failure is
recovered locally inside `download_emails` rather than surfaced. -/
theorem claim_C7_counterexample :
    MailDownloaderGraph.mainExitCode ⟨some "u@example.com", some "cid", some "sec", some "tid"⟩
      ⟨50, true, 100, 0⟩ true true
      ⟨none, fun _ => Except.ok [], [], fun _ => Except.ok [], fun _ => none⟩ 10 = 0 ∧
    MailDownloaderGraph.download_emails ⟨50, true, 100, 0⟩ true true
      ⟨none, fun _ => Except.ok [], [], fun _ => Except.ok [], fun _ => none⟩ 10 = [] := by
  constructor
  · decide
  · decide

/-! ## Claim C8 -/

/-- A Graph folder whose loop ends in a transport failure returns no
files (its mutations of the shared seen set persist). -/
theorem graph_folder_failed (cfg : MailDownloaderGraph.Cfg)
    (fetch : Nat → Except Unit (List GraphMsg)) (save : GraphMsg → Option String)
    (fuel : Nat) (seen : List (Option String))
    (h : (MailDownloaderGraph.loopFuel cfg fetch save fuel 0 seen [] 0).failed = true) :
    (MailDownloaderGraph._download_and_save_emails_from_folder cfg fetch save fuel seen).1 = [] := by
  unfold MailDownloaderGraph._download_and_save_emails_from_folder
  simp [h]

/-- C8 (confirmed): partial-failure isolation.  In both download paths,
when fetching the second of three folders raises a transport error, that
folder contributes an empty result list while the records of the first
and third folders are still returned.  In the EWS path the failing
folder is simply skipped; in the Graph path the run additionally threads
the shared `seen_email_ids` set through the failing folder's partial
progress into the third folder. -/
theorem claim_C8_theorem {α : Type} (cfgE : MailDownloader.Cfg)
    (e1 e2 e3 : Nat → Except Unit (List α)) (saveE : α → Option String)
    (cfgG : MailDownloaderGraph.Cfg)
    (g1 g2 g3 : Nat → Except Unit (List GraphMsg))
    (saveG : GraphMsg → Option String) (fuel : Nat) (seen : List (Option String))
    (hE : (MailDownloader.loopFuel cfgE e2 saveE fuel 0 [] 0).failed = true)
    (hG : (MailDownloaderGraph.loopFuel cfgG g2 saveG fuel 0
      (MailDownloaderGraph._download_and_save_emails_from_folder cfgG g1 saveG fuel seen).2
      [] 0).failed = true) :
    MailDownloader.download_run cfgE [e1, e2, e3] saveE fuel =
      MailDownloader._download_from_folder cfgE e1 saveE fuel ++
      MailDownloader._download_from_folder cfgE e3 saveE fuel ∧
    (MailDownloaderGraph.download_folders_run cfgG [g1, g2, g3] saveG fuel seen).1 =
      (MailDownloaderGraph._download_and_save_emails_from_folder cfgG g1 saveG fuel seen).1 ++
      (MailDownloaderGraph._download_and_save_emails_from_folder cfgG g3 saveG fuel
        (MailDownloaderGraph._download_and_save_emails_from_folder cfgG g2 saveG fuel
          (MailDownloaderGraph._download_and_save_emails_from_folder cfgG g1 saveG fuel
            seen).2).2).1 := by
  constructor
  · have h2 : MailDownloader._download_from_folder cfgE e2 saveE fuel = [] := by
      unfold MailDownloader._download_from_folder
      simp [hE]
    simp [MailDownloader.download_run, h2]
  · have h2 : (MailDownloaderGraph._download_and_save_emails_from_folder cfgG g2 saveG fuel
        (MailDownloaderGraph._download_and_save_emails_from_folder cfgG g1 saveG fuel
          seen).2).1 = [] := graph_folder_failed cfgG g2 saveG fuel _ hG
    simp [MailDownloaderGraph.download_folders_run, List.foldl, h2]

/-- C8 witness: a concrete three-folder run in each path where the
middle folder's fetch raises on its first page: the first and third
folders' records are still returned. -/
theorem claim_C8_witness :
    MailDownloader.download_run ⟨50, true, 100⟩
      [fun _ => Except.ok [(1 : Nat)], fun _ => Except.error (), fun _ => Except.ok [2]]
      (fun m => some (toString m)) 10 =
      MailDownloader._download_from_folder ⟨50, true, 100⟩
        (fun _ => Except.ok [(1 : Nat)]) (fun m => some (toString m)) 10 ++
      MailDownloader._download_from_folder ⟨50, true, 100⟩
        (fun _ => Except.ok [2]) (fun m => some (toString m)) 10 ∧
    (MailDownloaderGraph.download_folders_run ⟨50, true, 100, 0⟩
      [fun _ => Except.ok [⟨some "a", "a"⟩], fun _ => Except.error (),
        fun _ => Except.ok [⟨some "b", "b"⟩]]
      (fun m => some m.data) 10 []).1 =
      (MailDownloaderGraph._download_and_save_emails_from_folder ⟨50, true, 100, 0⟩
        (fun _ => Except.ok [⟨some "a", "a"⟩]) (fun m => some m.data) 10 []).1 ++
      (MailDownloaderGraph._download_and_save_emails_from_folder ⟨50, true, 100, 0⟩
        (fun _ => Except.ok [⟨some "b", "b"⟩]) (fun m => some m.data) 10
        (MailDownloaderGraph._download_and_save_emails_from_folder ⟨50, true, 100, 0⟩
          (fun _ => Except.error ()) (fun m => some m.data) 10
          (MailDownloaderGraph._download_and_save_emails_from_folder ⟨50, true, 100, 0⟩
            (fun _ => Except.ok [⟨some "a", "a"⟩]) (fun m => some m.data) 10
            []).2).2).1 :=
  claim_C8_theorem ⟨50, true, 100⟩ (fun _ => Except.ok [(1 : Nat)])
    (fun _ => Except.error ()) (fun _ => Except.ok [2]) (fun m => some (toString m))
    ⟨50, true, 100, 0⟩ (fun _ => Except.ok [⟨some "a", "a"⟩]) (fun _ => Except.error ())
    (fun _ => Except.ok [⟨some "b", "b"⟩]) (fun m => some m.data) 10 []
    (by decide) (by decide)

/-! ## Claim C3 -/

/-- Against a pathological backend that always returns a full page of
exactly `chunk_size` messages, the Graph folder loop with
`load_all_emails` on and `max_emails_per_folder = 0` (the default,
meaning unlimited) never reaches any of its exits: whatever the fuel,
it is still running. -/
theorem graphLoop_pathological (cfg : MailDownloaderGraph.Cfg)
    (fetch : Nat → Except Unit (List GraphMsg)) (save : GraphMsg → Option String)
    (hchunk : 1 ≤ cfg.chunk_size) (hla : cfg.load_all_emails = true)
    (hmepf : cfg.max_emails_per_folder = 0)
    (hfull : ∀ k, ∃ msgs, fetch k = Except.ok msgs ∧ msgs.length = cfg.chunk_size) :
    ∀ (fuel skip : Nat) (seen : List (Option String)) (files : List String) (calls : Nat),
      (MailDownloaderGraph.loopFuel cfg fetch save fuel skip seen files calls).finished = false := by
  intro fuel
  induction fuel with
  | zero => intro skip seen files calls; rfl
  | succ m ih =>
    intro skip seen files calls
    obtain ⟨msgs, hfe, hlen⟩ := hfull skip
    have hne : msgs.isEmpty = false := by
      cases msgs with
      | nil => rw [List.length_nil] at hlen; omega
      | cons a as => rfl
    rcases hpe : MailDownloaderGraph.processEmails save msgs seen with ⟨s2, nf, att⟩
    simp only [MailDownloaderGraph.loopFuel, hfe, hne, hpe, hla, hlen, hmepf]
    simp only [Bool.false_eq_true, if_false, not_true, false_and, lt_self_iff_false,
      lt_irrefl, and_false]
    exact ih _ _ _ _

/-- The EWS folder loop terminates against any backend that keeps
returning full pages: its offset grows by `chunk_size ≥ 1` every
iteration and the hard `offset ≥ 1000` ceiling then stops it, so fuel
`1001` (or any fuel covering the remaining offsets) always suffices. -/
theorem ewsLoop_safety_terminates {α : Type} (cfg : MailDownloader.Cfg)
    (fetch : Nat → Except Unit (List α)) (save : α → Option String)
    (hchunk : 1 ≤ cfg.chunk_size)
    (hfull : ∀ k, ∃ msgs, fetch k = Except.ok msgs ∧ msgs.length = cfg.chunk_size) :
    ∀ (fuel offset : Nat) (files : List String) (calls : Nat),
      1 ≤ fuel → 1001 ≤ fuel + offset →
      (MailDownloader.loopFuel cfg fetch save fuel offset files calls).finished = true := by
  intro fuel
  induction fuel with
  | zero => intro offset files calls h1 _; omega
  | succ m ih =>
    intro offset files calls _ hinv
    obtain ⟨msgs, hfe, hlen⟩ := hfull offset
    have hne : msgs.isEmpty = false := by
      cases msgs with
      | nil => rw [List.length_nil] at hlen; omega
      | cons a as => rfl
    simp only [MailDownloader.loopFuel, hfe, hne, Bool.false_eq_true, if_false]
    by_cases hcap : ¬cfg.load_all_emails ∧
        cfg.max_emails ≤ (files ++ msgs.filterMap save).length
    · rw [if_pos hcap]
    · rw [if_neg hcap]
      rw [if_neg (by omega : ¬msgs.length < cfg.chunk_size)]
      by_cases hsafe : 1000 ≤ offset + cfg.chunk_size
      · rw [if_pos hsafe]
      · rw [if_neg hsafe]
        have hm1 : 1 ≤ m := by omega
        exact ih _ _ _ hm1 (by omega)

/-- The Graph folder loop terminates against a full-page backend
whenever the optional per-folder ceiling is switched on
(`max_emails_per_folder ≥ 1`): the skip count grows by
`chunk_size ≥ 1` per iteration until the ceiling check stops it. -/
theorem graphLoop_mepf_terminates (cfg : MailDownloaderGraph.Cfg)
    (fetch : Nat → Except Unit (List GraphMsg)) (save : GraphMsg → Option String)
    (hchunk : 1 ≤ cfg.chunk_size) (hmepf : 1 ≤ cfg.max_emails_per_folder)
    (hfull : ∀ k, ∃ msgs, fetch k = Except.ok msgs ∧ msgs.length = cfg.chunk_size) :
    ∀ (fuel skip : Nat) (seen : List (Option String)) (files : List String) (calls : Nat),
      1 ≤ fuel → cfg.max_emails_per_folder + 1 ≤ fuel + skip →
      (MailDownloaderGraph.loopFuel cfg fetch save fuel skip seen files calls).finished = true := by
  intro fuel
  induction fuel with
  | zero => intro skip seen files calls h1 _; omega
  | succ m ih =>
    intro skip seen files calls _ hinv
    obtain ⟨msgs, hfe, hlen⟩ := hfull skip
    have hne : msgs.isEmpty = false := by
      cases msgs with
      | nil => rw [List.length_nil] at hlen; omega
      | cons a as => rfl
    rcases hpe : MailDownloaderGraph.processEmails save msgs seen with ⟨s2, nf, att⟩
    simp only [MailDownloaderGraph.loopFuel, hfe, hne, hpe, Bool.false_eq_true, if_false]
    by_cases hcap : ¬cfg.load_all_emails ∧ cfg.max_emails ≤ (files ++ nf).length
    · rw [if_pos hcap]
    · rw [if_neg hcap]
      rw [if_neg (by omega : ¬msgs.length < cfg.chunk_size)]
      by_cases hsafe : 0 < cfg.max_emails_per_folder ∧
          cfg.max_emails_per_folder ≤ skip + cfg.chunk_size
      · rw [if_pos hsafe]
      · rw [if_neg hsafe]
        have hm1 : 1 ≤ m := by omega
        exact ih _ _ _ _ hm1 (by omega)

/-- C3 (corrected): the safety ceiling differs between the two paths.
The EWS loop always terminates against a backend that serves full pages
forever: the hard `offset ≥ 1000` check stops it.  The Graph loop has a
ceiling only when `MAX_EMAILS_PER_FOLDER` is set to a positive value,
in which case it terminates within it; under the default configuration
(`max_emails_per_folder = 0`, unlimited, with `load_all_emails` on) the
Graph loop has no safety ceiling at all and never terminates against
such a backend (see the counterexample). -/
theorem claim_C3_amended :
    (∀ (α : Type) (cfg : MailDownloader.Cfg) (fetch : Nat → Except Unit (List α))
      (save : α → Option String),
      1 ≤ cfg.chunk_size →
      (∀ k, ∃ msgs, fetch k = Except.ok msgs ∧ msgs.length = cfg.chunk_size) →
      (MailDownloader.loopFuel cfg fetch save 1001 0 [] 0).finished = true) ∧
    (∀ (cfg : MailDownloaderGraph.Cfg) (fetch : Nat → Except Unit (List GraphMsg))
      (save : GraphMsg → Option String),
      1 ≤ cfg.chunk_size → 1 ≤ cfg.max_emails_per_folder →
      (∀ k, ∃ msgs, fetch k = Except.ok msgs ∧ msgs.length = cfg.chunk_size) →
      (MailDownloaderGraph.loopFuel cfg fetch save (cfg.max_emails_per_folder + 1)
        0 [] [] 0).finished = true) := by
  constructor
  · intro α cfg fetch save hchunk hfull
    exact ewsLoop_safety_terminates cfg fetch save hchunk hfull 1001 0 [] 0
      (by omega) (by omega)
  · intro cfg fetch save hchunk hmepf hfull
    exact graphLoop_mepf_terminates cfg fetch save hchunk hmepf hfull
      (cfg.max_emails_per_folder + 1) 0 [] [] 0 (by omega) (by omega)

/-- C3 witness: concrete full-page backends; the EWS loop with chunk 2
finishes within fuel 1001, and the Graph loop with the ceiling set to 7
finishes within fuel 8. -/
theorem claim_C3_witness :
    (MailDownloader.loopFuel ⟨2, true, 100⟩
      (fun _ => Except.ok [(1 : Nat), 2]) (fun _ => some "f") 1001 0 [] 0).finished = true ∧
    (MailDownloaderGraph.loopFuel ⟨2, true, 100, 7⟩
      (fun _ => Except.ok [⟨none, "a"⟩, ⟨none, "b"⟩]) (fun _ => some "f")
      8 0 [] [] 0).finished = true := by
  constructor
  · exact claim_C3_amended.1 Nat ⟨2, true, 100⟩ _ _ (by decide)
      (fun k => ⟨[1, 2], rfl, rfl⟩)
  · exact claim_C3_amended.2 ⟨2, true, 100, 7⟩ _ _ (by decide) (by decide)
      (fun k => ⟨[⟨none, "a"⟩, ⟨none, "b"⟩], rfl, rfl⟩)

/-- C3 counterexample: under the default configuration — chunk size 50,
`LOAD_ALL_EMAILS` on, `MAX_EMAILS=100`, `MAX_EMAILS_PER_FOLDER=0`
(unlimited) — the Graph folder loop run against a backend that always
returns a full page of 50 messages is still running after 5000
iterations; `graphLoop_pathological` shows the same for every fuel, so
the loop never terminates: the Graph path has no effective safety
ceiling by default and the claim fails there. -/
theorem claim_C3_counterexample :
    (MailDownloaderGraph.loopFuel ⟨50, true, 100, 0⟩
      (fun _ => Except.ok (List.replicate 50 ⟨none, "m"⟩))
      (fun _ => none) 5000 0 [] [] 0).finished = false := by
  apply graphLoop_pathological ⟨50, true, 100, 0⟩ _ _ (by decide) rfl rfl
  intro k
  exact ⟨List.replicate 50 ⟨none, "m"⟩, rfl, by simp⟩

/-! ## Claim C4 -/

theorem isEmpty_false_of_length_pos {β : Type} {l : List β} (h : 0 < l.length) :
    l.isEmpty = false := by
  cases l with
  | nil => simp at h
  | cons a as => rfl

/-- Fetch-call count of the EWS folder loop over a list-backed backend
(each page is the slice of the folder's query result at the requested
offset): from `offset`, with the cap disabled and the safety ceiling out
of reach, the loop issues `(length - offset) / chunk + 1` further
fetches and finishes. -/
theorem ewsLoop_calls {α : Type} (cfg : MailDownloader.Cfg) (allMsgs : List α)
    (save : α → Option String) (hla : cfg.load_all_emails = true)
    (hc : 1 ≤ cfg.chunk_size) (hT : allMsgs.length ≤ 999) :
    ∀ (fuel offset : Nat) (files : List String) (calls : Nat),
      offset ≤ allMsgs.length → allMsgs.length - offset + 2 ≤ fuel →
      (MailDownloader.loopFuel cfg
        (fun k => Except.ok ((allMsgs.drop k).take cfg.chunk_size)) save
        fuel offset files calls).calls =
          calls + (allMsgs.length - offset) / cfg.chunk_size + 1 ∧
      (MailDownloader.loopFuel cfg
        (fun k => Except.ok ((allMsgs.drop k).take cfg.chunk_size)) save
        fuel offset files calls).finished = true := by
  intro fuel
  induction fuel with
  | zero => intro offset files calls _ hfuel; omega
  | succ m ih =>
    intro offset files calls hoffle hfuel
    have hpagelen : ((allMsgs.drop offset).take cfg.chunk_size).length =
        min cfg.chunk_size (allMsgs.length - offset) := by
      rw [List.length_take, List.length_drop]
    by_cases hoff : allMsgs.length ≤ offset
    · have hz : allMsgs.length - offset = 0 := by omega
      have hdrop : allMsgs.drop offset = [] := List.drop_eq_nil_of_le hoff
      simp only [MailDownloader.loopFuel, hdrop, List.take_nil, List.isEmpty_nil, if_true]
      rw [hz, Nat.zero_div]
      refine ⟨?_, ?_⟩ <;> simp
    · push_neg at hoff
      have hne : ((allMsgs.drop offset).take cfg.chunk_size).isEmpty = false :=
        isEmpty_false_of_length_pos (by rw [hpagelen]; omega)
      simp only [MailDownloader.loopFuel, hne, Bool.false_eq_true, if_false]
      rw [if_neg (by simp [hla])]
      by_cases hshort : allMsgs.length - offset < cfg.chunk_size
      · rw [if_pos (by rw [hpagelen]; omega)]
        rw [Nat.div_eq_of_lt hshort]
        exact ⟨rfl, rfl⟩
      · rw [if_neg (by rw [hpagelen]; omega)]
        rw [if_neg (by omega : ¬1000 ≤ offset + cfg.chunk_size)]
        obtain ⟨ihc, ihf⟩ := ih (offset + cfg.chunk_size) (files ++
          ((allMsgs.drop offset).take cfg.chunk_size).filterMap save) (calls + 1)
          (by omega) (by omega)
        refine ⟨?_, ihf⟩
        rw [ihc]
        have hdiv : (allMsgs.length - offset) / cfg.chunk_size =
            (allMsgs.length - (offset + cfg.chunk_size)) / cfg.chunk_size + 1 := by
          rw [Nat.div_eq (allMsgs.length - offset) cfg.chunk_size,
            if_pos ⟨by omega, by omega⟩]
          congr 2
          omega
        rw [hdiv]
        omega

/-- Fetch-call count of the Graph folder loop over a list-backed
backend: identical to the EWS count, with the default
`max_emails_per_folder = 0` disabling the per-folder ceiling. -/
theorem graphLoop_calls (cfg : MailDownloaderGraph.Cfg) (allMsgs : List GraphMsg)
    (save : GraphMsg → Option String) (hla : cfg.load_all_emails = true)
    (hc : 1 ≤ cfg.chunk_size) (hmepf : cfg.max_emails_per_folder = 0) :
    ∀ (fuel offset : Nat) (seen : List (Option String)) (files : List String) (calls : Nat),
      offset ≤ allMsgs.length → allMsgs.length - offset + 2 ≤ fuel →
      (MailDownloaderGraph.loopFuel cfg
        (fun k => Except.ok ((allMsgs.drop k).take cfg.chunk_size)) save
        fuel offset seen files calls).calls =
          calls + (allMsgs.length - offset) / cfg.chunk_size + 1 ∧
      (MailDownloaderGraph.loopFuel cfg
        (fun k => Except.ok ((allMsgs.drop k).take cfg.chunk_size)) save
        fuel offset seen files calls).finished = true := by
  intro fuel
  induction fuel with
  | zero => intro offset seen files calls _ hfuel; omega
  | succ m ih =>
    intro offset seen files calls hoffle hfuel
    have hpagelen : ((allMsgs.drop offset).take cfg.chunk_size).length =
        min cfg.chunk_size (allMsgs.length - offset) := by
      rw [List.length_take, List.length_drop]
    by_cases hoff : allMsgs.length ≤ offset
    · have hz : allMsgs.length - offset = 0 := by omega
      have hdrop : allMsgs.drop offset = [] := List.drop_eq_nil_of_le hoff
      simp only [MailDownloaderGraph.loopFuel, hdrop, List.take_nil, List.isEmpty_nil, if_true]
      rw [hz, Nat.zero_div]
      refine ⟨?_, ?_⟩ <;> simp
    · push_neg at hoff
      have hne : ((allMsgs.drop offset).take cfg.chunk_size).isEmpty = false :=
        isEmpty_false_of_length_pos (by rw [hpagelen]; omega)
      rcases hpe : MailDownloaderGraph.processEmails save
        ((allMsgs.drop offset).take cfg.chunk_size) seen with ⟨s2, nf, att⟩
      simp only [MailDownloaderGraph.loopFuel, hne, Bool.false_eq_true, if_false, hpe]
      rw [if_neg (by simp [hla])]
      by_cases hshort : allMsgs.length - offset < cfg.chunk_size
      · rw [if_pos (by rw [hpagelen]; omega)]
        rw [Nat.div_eq_of_lt hshort]
        exact ⟨rfl, rfl⟩
      · rw [if_neg (by rw [hpagelen]; omega)]
        rw [if_neg (by simp [hmepf])]
        obtain ⟨ihc, ihf⟩ := ih (offset + cfg.chunk_size) s2 (files ++ nf) (calls + 1)
          (by omega) (by omega)
        refine ⟨?_, ihf⟩
        rw [ihc]
        have hdiv : (allMsgs.length - offset) / cfg.chunk_size =
            (allMsgs.length - (offset + cfg.chunk_size)) / cfg.chunk_size + 1 := by
          rw [Nat.div_eq (allMsgs.length - offset) cfg.chunk_size,
            if_pos ⟨by omega, by omega⟩]
          congr 2
          omega
        rw [hdiv]
        omega

/-- C4 (corrected): over a folder holding `T` messages served as slices
of the newest-first query result, with the cap disabled and the safety
ceiling out of reach, both fetch loops terminate after issuing exactly
`T / chunkSize + 1` page fetches.  When `chunkSize` does not divide `T`
this equals `⌈T / chunkSize⌉` and the loop stops on the first short
page; when `chunkSize` divides `T` — including `T` a positive exact
multiple — the final full page does not stop the loop, so one extra
fetch is issued that returns the empty page, for `⌈T / chunkSize⌉ + 1`
fetches in total. -/
theorem claim_C4_amended :
    (∀ (α : Type) (cfg : MailDownloader.Cfg) (allMsgs : List α)
      (save : α → Option String) (fuel : Nat),
      cfg.load_all_emails = true → 1 ≤ cfg.chunk_size → allMsgs.length ≤ 999 →
      allMsgs.length + 2 ≤ fuel →
      (MailDownloader.loopFuel cfg
        (fun k => Except.ok ((allMsgs.drop k).take cfg.chunk_size)) save
        fuel 0 [] 0).calls = allMsgs.length / cfg.chunk_size + 1 ∧
      (MailDownloader.loopFuel cfg
        (fun k => Except.ok ((allMsgs.drop k).take cfg.chunk_size)) save
        fuel 0 [] 0).finished = true) ∧
    (∀ (cfg : MailDownloaderGraph.Cfg) (allMsgs : List GraphMsg)
      (save : GraphMsg → Option String) (fuel : Nat),
      cfg.load_all_emails = true → 1 ≤ cfg.chunk_size →
      cfg.max_emails_per_folder = 0 → allMsgs.length + 2 ≤ fuel →
      (MailDownloaderGraph.loopFuel cfg
        (fun k => Except.ok ((allMsgs.drop k).take cfg.chunk_size)) save
        fuel 0 [] [] 0).calls = allMsgs.length / cfg.chunk_size + 1 ∧
      (MailDownloaderGraph.loopFuel cfg
        (fun k => Except.ok ((allMsgs.drop k).take cfg.chunk_size)) save
        fuel 0 [] [] 0).finished = true) := by
  constructor
  · intro α cfg allMsgs save fuel hla hc hT hfuel
    have h := ewsLoop_calls cfg allMsgs save hla hc hT fuel 0 [] 0
      (by omega) (by omega)
    simpa using h
  · intro cfg allMsgs save fuel hla hc hmepf hfuel
    have h := graphLoop_calls cfg allMsgs save hla hc hmepf fuel 0 [] [] 0
      (by omega) (by omega)
    simpa using h

/-- C4 witness: a folder of 3 messages with chunk size 2 — no exact
multiple — takes `3 / 2 + 1 = 2 = ⌈3/2⌉` fetches in both loops. -/
theorem claim_C4_witness :
    ((MailDownloader.loopFuel ⟨2, true, 100⟩
      (fun k => Except.ok ((([(1 : Nat), 2, 3]).drop k).take 2)) (fun _ => some "f")
      10 0 [] 0).calls = 2 ∧
    (MailDownloader.loopFuel ⟨2, true, 100⟩
      (fun k => Except.ok ((([(1 : Nat), 2, 3]).drop k).take 2)) (fun _ => some "f")
      10 0 [] 0).finished = true) ∧
    ((MailDownloaderGraph.loopFuel ⟨2, true, 100, 0⟩
      (fun k => Except.ok ((([⟨some "a", "a"⟩, ⟨some "b", "b"⟩, ⟨some "c", "c"⟩] :
        List GraphMsg).drop k).take 2)) (fun _ => some "f")
      10 0 [] [] 0).calls = 2 ∧
    (MailDownloaderGraph.loopFuel ⟨2, true, 100, 0⟩
      (fun k => Except.ok ((([⟨some "a", "a"⟩, ⟨some "b", "b"⟩, ⟨some "c", "c"⟩] :
        List GraphMsg).drop k).take 2)) (fun _ => some "f")
      10 0 [] [] 0).finished = true) := by
  constructor
  · exact claim_C4_amended.1 Nat ⟨2, true, 100⟩ [1, 2, 3] (fun _ => some "f") 10
      rfl (by decide) (by decide) (by decide)
  · exact claim_C4_amended.2 ⟨2, true, 100, 0⟩
      [⟨some "a", "a"⟩, ⟨some "b", "b"⟩, ⟨some "c", "c"⟩] (fun _ => some "f") 10
      rfl (by decide) rfl (by decide)

/-- C4 counterexample: a folder holding exactly `T = 4` messages with
`chunkSize = 2` — an exact multiple — causes the EWS loop to issue 3
fetch calls, not `⌈4/2⌉ = 2` as the claim states: after the second full
page the loop cannot tell the folder is exhausted and fetches once
more, receiving the empty page. -/
theorem claim_C4_counterexample :
    (MailDownloader.loopFuel ⟨2, true, 100⟩
      (fun k => Except.ok ((([(1 : Nat), 2, 3, 4]).drop k).take 2)) (fun _ => some "f")
      10 0 [] 0).calls ≠ (4 + 2 - 1) / 2 := by
  decide

/-! ## Claim C2 -/

theorem filterMap_some_comp {α : Type} (f : α → String) (l : List α) :
    l.filterMap (fun m => some (f m)) = l.map f := by
  induction l with
  | nil => rfl
  | cons a as ih => simp [List.filterMap_cons, ih]

/-- The EWS folder loop never lets the persisted list exceed
`max_emails` when `load_all_emails` is off, against any backend and any
save behavior: the cap check truncates before any other exit is
taken. -/
theorem ewsLoop_cap {α : Type} (cfg : MailDownloader.Cfg)
    (fetch : Nat → Except Unit (List α)) (save : α → Option String)
    (hla : cfg.load_all_emails = false) :
    ∀ (fuel offset : Nat) (files : List String) (calls : Nat),
      files.length ≤ cfg.max_emails →
      (MailDownloader.loopFuel cfg fetch save fuel offset files calls).files.length ≤
        cfg.max_emails := by
  intro fuel
  induction fuel with
  | zero => intro offset files calls h; exact h
  | succ m ih =>
    intro offset files calls h
    rcases hfe : fetch offset with e | msgs
    · simp only [MailDownloader.loopFuel, hfe]
      exact h
    · simp only [MailDownloader.loopFuel, hfe]
      by_cases hne : msgs.isEmpty = true
      · rw [if_pos hne]
        exact h
      · rw [if_neg hne]
        by_cases hcap : ¬cfg.load_all_emails ∧
            cfg.max_emails ≤ (files ++ msgs.filterMap save).length
        · rw [if_pos hcap]
          show ((files ++ msgs.filterMap save).take cfg.max_emails).length ≤ _
          rw [List.length_take]
          omega
        · rw [if_neg hcap]
          have hlt : (files ++ msgs.filterMap save).length < cfg.max_emails := by
            by_contra hge
            exact hcap ⟨by simp [hla], by omega⟩
          by_cases hshort : msgs.length < cfg.chunk_size
          · rw [if_pos hshort]
            exact le_of_lt hlt
          · rw [if_neg hshort]
            by_cases hsafe : 1000 ≤ offset + cfg.chunk_size
            · rw [if_pos hsafe]
              exact le_of_lt hlt
            · rw [if_neg hsafe]
              exact ih _ _ _ (le_of_lt hlt)

/-- Against a list-backed backend serving slices of the newest-first
query result, with every save succeeding, the EWS loop with the cap on
persists exactly the first `max_emails` messages of the folder — the
most recently received ones. -/
theorem ewsLoop_retained {α : Type} (cfg : MailDownloader.Cfg) (allMsgs : List α)
    (path : α → String) (hla : cfg.load_all_emails = false)
    (hc : 1 ≤ cfg.chunk_size) (hN1 : 1 ≤ cfg.max_emails)
    (hN : cfg.max_emails ≤ 1000) :
    ∀ (fuel offset calls : Nat),
      offset ≤ allMsgs.length → offset < cfg.max_emails → offset < 1000 →
      1 ≤ fuel → 1001 ≤ fuel + offset →
      (MailDownloader.loopFuel cfg
        (fun k => Except.ok ((allMsgs.drop k).take cfg.chunk_size))
        (fun m => some (path m)) fuel offset ((allMsgs.take offset).map path)
        calls).files = (allMsgs.take cfg.max_emails).map path := by
  intro fuel
  induction fuel with
  | zero => intro offset calls _ _ _ h1 _; omega
  | succ m ih =>
    intro offset calls hoffle hoffN hoff1000 _ hinv
    have hpagelen : ((allMsgs.drop offset).take cfg.chunk_size).length =
        min cfg.chunk_size (allMsgs.length - offset) := by
      rw [List.length_take, List.length_drop]
    by_cases hoff : allMsgs.length ≤ offset
    · have hdrop : allMsgs.drop offset = [] := List.drop_eq_nil_of_le hoff
      simp only [MailDownloader.loopFuel, hdrop, List.take_nil, List.isEmpty_nil, if_true]
      show (allMsgs.take offset).map path = _
      rw [List.take_of_length_le hoff, List.take_of_length_le (by omega)]
    · push_neg at hoff
      have hne : ((allMsgs.drop offset).take cfg.chunk_size).isEmpty = false :=
        isEmpty_false_of_length_pos (by rw [hpagelen]; omega)
      have hfiles1 : (allMsgs.take offset).map path ++
          ((allMsgs.drop offset).take cfg.chunk_size).filterMap (fun m => some (path m)) =
          (allMsgs.take (offset + cfg.chunk_size)).map path := by
        rw [filterMap_some_comp, ← List.map_append, ← List.take_add]
      simp only [MailDownloader.loopFuel, hne, Bool.false_eq_true, if_false, hfiles1]
      have hlen1 : ((allMsgs.take (offset + cfg.chunk_size)).map path).length =
          min (offset + cfg.chunk_size) allMsgs.length := by
        rw [List.length_map, List.length_take]
      by_cases hcap : cfg.max_emails ≤ min (offset + cfg.chunk_size) allMsgs.length
      · rw [if_pos ⟨by simp [hla], by rw [hlen1]; exact hcap⟩]
        show ((allMsgs.take (offset + cfg.chunk_size)).map path).take cfg.max_emails = _
        rw [← List.map_take, List.take_take,
          show min cfg.max_emails (offset + cfg.chunk_size) = cfg.max_emails from by omega]
      · rw [if_neg (by
          rintro ⟨-, hle⟩
          rw [hlen1] at hle
          omega)]
        by_cases hshort : allMsgs.length - offset < cfg.chunk_size
        · rw [if_pos (by rw [hpagelen]; omega)]
          show (allMsgs.take (offset + cfg.chunk_size)).map path = _
          rw [List.take_of_length_le (by omega), List.take_of_length_le (by omega)]
        · rw [if_neg (by rw [hpagelen]; omega)]
          by_cases hsafe : 1000 ≤ offset + cfg.chunk_size
          · exfalso
            omega
          · rw [if_neg hsafe]
            exact ih (offset + cfg.chunk_size) (calls + 1) (by omega) (by omega)
              (by omega) (by omega) (by omega)

/-- One chunk of the Graph dedup-and-save body appends at most one file
per email of the page. -/
theorem processEmails_files_le (save : GraphMsg → Option String) :
    ∀ (msgs : List GraphMsg) (seen : List (Option String)),
      (MailDownloaderGraph.processEmails save msgs seen).2.1.length ≤ msgs.length := by
  intro msgs
  induction msgs with
  | nil => intro seen; simp [MailDownloaderGraph.processEmails]
  | cons m rest ih =>
    intro seen
    simp only [MailDownloaderGraph.processEmails]
    by_cases hskip : optTruthy m.id ∧ m.id ∈ seen
    · rw [if_pos hskip]
      calc (MailDownloaderGraph.processEmails save rest seen).2.1.length
          ≤ rest.length := ih seen
        _ ≤ (m :: rest).length := by simp
    · rw [if_neg hskip]
      rcases hpe : MailDownloaderGraph.processEmails save rest (m.id :: seen) with ⟨s2, nf, att⟩
      have hnf : nf.length ≤ rest.length := by
        have := ih (m.id :: seen)
        rw [hpe] at this
        simpa using this
      have htl : (save m).toList.length ≤ 1 := by cases save m <;> simp
      simp only [hpe, List.length_append, List.length_cons]
      omega

/-- The Graph folder loop with the cap on can exceed `max_emails`, but
only within the final chunk: against a backend whose pages never exceed
`chunk_size`, the persisted count stays below
`max_emails + chunk_size`. -/
theorem graphLoop_cap_bound (cfg : MailDownloaderGraph.Cfg)
    (fetch : Nat → Except Unit (List GraphMsg)) (save : GraphMsg → Option String)
    (hla : cfg.load_all_emails = false) (hN1 : 1 ≤ cfg.max_emails)
    (hpg : ∀ k msgs, fetch k = Except.ok msgs → msgs.length ≤ cfg.chunk_size) :
    ∀ (fuel skip : Nat) (seen : List (Option String)) (files : List String) (calls : Nat),
      files.length < cfg.max_emails →
      (MailDownloaderGraph.loopFuel cfg fetch save fuel skip seen files calls).files.length ≤
        cfg.max_emails + cfg.chunk_size - 1 := by
  intro fuel
  induction fuel with
  | zero =>
    intro skip seen files calls h
    show files.length ≤ _
    omega
  | succ m ih =>
    intro skip seen files calls h
    rcases hfe : fetch skip with e | msgs
    · simp only [MailDownloaderGraph.loopFuel, hfe]
      show files.length ≤ _
      omega
    · by_cases hne : msgs.isEmpty = true
      · simp only [MailDownloaderGraph.loopFuel, hfe]
        rw [if_pos hne]
        show files.length ≤ _
        omega
      · rcases hpe : MailDownloaderGraph.processEmails save msgs seen with ⟨s2, nf, att⟩
        have hnf : nf.length ≤ msgs.length := by
          have := processEmails_files_le save msgs seen
          rw [hpe] at this
          simpa using this
        have hmsgs : msgs.length ≤ cfg.chunk_size := hpg skip msgs hfe
        simp only [MailDownloaderGraph.loopFuel, hfe, hpe]
        rw [if_neg hne]
        by_cases hcap : ¬cfg.load_all_emails ∧ cfg.max_emails ≤ (files ++ nf).length
        · rw [if_pos hcap]
          show (files ++ nf).length ≤ _
          rw [List.length_append]
          omega
        · rw [if_neg hcap]
          have hlt : (files ++ nf).length < cfg.max_emails := by
            by_contra hge
            exact hcap ⟨by simp [hla], by omega⟩
          by_cases hshort : msgs.length < cfg.chunk_size
          · rw [if_pos hshort]
            show (files ++ nf).length ≤ _
            omega
          · rw [if_neg hshort]
            by_cases hsafe : 0 < cfg.max_emails_per_folder ∧
                cfg.max_emails_per_folder ≤ skip + cfg.chunk_size
            · rw [if_pos hsafe]
              show (files ++ nf).length ≤ _
              omega
            · rw [if_neg hsafe]
              exact ih _ _ _ _ hlt

/-- C2 (corrected): cap enforcement differs between the two paths.  In
the EWS path the loop truncates, so the records persisted from a folder
never exceed `maxEmails = N` for any backend, and against a backend that
serves the newest-first query result in slices (with saves succeeding)
the persisted records are exactly the `N` most-recently-received, i.e.
the first `N` of the folder.  In the Graph path the loop breaks without
truncating, so a folder can persist more than `N` records — up to
`N + chunkSize - 1` when pages respect the chunk size — because the cap
is only checked at chunk boundaries. -/
theorem claim_C2_amended :
    (∀ (α : Type) (cfg : MailDownloader.Cfg) (fetch : Nat → Except Unit (List α))
      (save : α → Option String) (fuel : Nat),
      cfg.load_all_emails = false →
      (MailDownloader.loopFuel cfg fetch save fuel 0 [] 0).files.length ≤
        cfg.max_emails) ∧
    (∀ (α : Type) (cfg : MailDownloader.Cfg) (allMsgs : List α) (path : α → String),
      cfg.load_all_emails = false → 1 ≤ cfg.chunk_size → 1 ≤ cfg.max_emails →
      cfg.max_emails ≤ 1000 →
      (MailDownloader.loopFuel cfg
        (fun k => Except.ok ((allMsgs.drop k).take cfg.chunk_size))
        (fun m => some (path m)) 1001 0 [] 0).files =
        (allMsgs.take cfg.max_emails).map path) ∧
    (∀ (cfg : MailDownloaderGraph.Cfg) (fetch : Nat → Except Unit (List GraphMsg))
      (save : GraphMsg → Option String) (fuel : Nat),
      cfg.load_all_emails = false → 1 ≤ cfg.max_emails →
      (∀ k msgs, fetch k = Except.ok msgs → msgs.length ≤ cfg.chunk_size) →
      (MailDownloaderGraph.loopFuel cfg fetch save fuel 0 [] [] 0).files.length ≤
        cfg.max_emails + cfg.chunk_size - 1) := by
  refine ⟨?_, ?_, ?_⟩
  · intro α cfg fetch save fuel hla
    exact ewsLoop_cap cfg fetch save hla fuel 0 [] 0 (by simp)
  · intro α cfg allMsgs path hla hc hN1 hN
    have h := ewsLoop_retained cfg allMsgs path hla hc hN1 hN 1001 0 0
      (by omega) (by omega) (by omega) (by omega) (by omega)
    simpa using h
  · intro cfg fetch save fuel hla hN1 hpg
    exact graphLoop_cap_bound cfg fetch save hla hN1 hpg fuel 0 [] [] 0 (by simpa using hN1)

/-- C2 witness: with `loadAllEmails` off and `maxEmails = 1`, the EWS
loop over a 4-message folder with chunk size 2 persists exactly the
single newest message, and the Graph loop is bounded by
`1 + 2 - 1 = 2`. -/
theorem claim_C2_witness :
    (MailDownloader.loopFuel ⟨2, false, 1⟩
      (fun k => Except.ok ((([(10 : Nat), 20, 30, 40]).drop k).take 2))
      (fun m => some (toString m)) 5 0 [] 0).files.length ≤ 1 ∧
    (MailDownloader.loopFuel ⟨2, false, 1⟩
      (fun k => Except.ok ((([(10 : Nat), 20, 30, 40]).drop k).take 2))
      (fun m => some (toString m)) 1001 0 [] 0).files =
      ([(10 : Nat)]).map toString ∧
    (MailDownloaderGraph.loopFuel ⟨2, false, 1, 0⟩
      (fun k => Except.ok ((([⟨some "a", "a"⟩, ⟨some "b", "b"⟩] : List GraphMsg).drop k).take 2))
      (fun m => some m.data) 5 0 [] [] 0).files.length ≤ 1 + 2 - 1 := by
  refine ⟨?_, ?_, ?_⟩
  · exact claim_C2_amended.1 Nat ⟨2, false, 1⟩ _ _ 5 rfl
  · have h := claim_C2_amended.2.1 Nat ⟨2, false, 1⟩ [10, 20, 30, 40] toString
      rfl (by decide) (by decide) (by decide)
    simpa using h
  · exact claim_C2_amended.2.2 ⟨2, false, 1, 0⟩ _ _ 5 rfl (by decide)
      (fun k msgs hk => by
        have : msgs = (([⟨some "a", "a"⟩, ⟨some "b", "b"⟩] : List GraphMsg).drop k).take 2 :=
          (Except.ok.inj hk).symm
        rw [this]
        simp [List.length_take])

/-- C2 counterexample: in the Graph path with `loadAllEmails` off,
`maxEmails = 1` and chunk size 2, a folder whose first page holds two
messages persists both of them — 2 records, exceeding the cap of 1 —
because the loop only breaks (without truncating) after saving the
whole chunk. -/
theorem claim_C2_counterexample :
    ¬((MailDownloaderGraph.loopFuel ⟨2, false, 1, 0⟩
      (fun k => Except.ok ((([⟨some "a", "a"⟩, ⟨some "b", "b"⟩] : List GraphMsg).drop k).take 2))
      (fun m => some m.data) 5 0 [] [] 0).files.length ≤ 1) := by
  decide

/-! ## Claim C1 -/

/-- Exact dedup behavior of the Graph per-chunk body: for a truthy id
`i`, the number of messages with that id that pass the dedup check (and
are therefore save-attempted) is zero when `i` is already in the seen
set and otherwise `min 1 (occurrences in the stream)`. -/
theorem processEmails_dedup (save : GraphMsg → Option String) (i : String)
    (hi : i ≠ "") :
    ∀ (msgs : List GraphMsg) (seen : List (Option String)),
      (MailDownloaderGraph.processEmails save msgs seen).2.2.countP
        (fun m => m.id = some i) =
        if (some i) ∈ seen then 0
        else min 1 (msgs.countP (fun m => m.id = some i)) := by
  intro msgs
  induction msgs with
  | nil =>
    intro seen
    simp [MailDownloaderGraph.processEmails]
  | cons m rest ih =>
    intro seen
    simp only [MailDownloaderGraph.processEmails]
    by_cases hskip : optTruthy m.id ∧ m.id ∈ seen
    · rw [if_pos hskip, ih seen]
      by_cases hmi : m.id = some i
      · have hseen : (some i) ∈ seen := hmi ▸ hskip.2
        rw [if_pos hseen, if_pos hseen]
      · rw [List.countP_cons_of_neg _ rest (by simpa using hmi)]
    · rw [if_neg hskip]
      rcases hpe : MailDownloaderGraph.processEmails save rest (m.id :: seen)
        with ⟨s2, nf, att⟩
      have hih := ih (m.id :: seen)
      rw [hpe] at hih
      simp only [hpe]
      by_cases hmi : m.id = some i
      · have hopt : optTruthy m.id = true := by rw [hmi]; simp [optTruthy, hi]
        have hnot : (some i) ∉ seen := fun hmem => hskip ⟨hopt, hmi ▸ hmem⟩
        rw [List.countP_cons_of_pos _ att (by simpa using hmi)]
        rw [hih, if_pos (by rw [← hmi]; exact List.mem_cons_self _ _)]
        rw [if_neg hnot, List.countP_cons_of_pos _ rest (by simpa using hmi)]
        omega
      · rw [List.countP_cons_of_neg _ att (by simpa using hmi), hih,
          List.countP_cons_of_neg _ rest (by simpa using hmi)]
        have hmem : ((some i) ∈ m.id :: seen) ↔ ((some i) ∈ seen) := by
          rw [List.mem_cons]
          constructor
          · rintro (h | h)
            · exact absurd h.symm hmi
            · exact h
          · exact Or.inr
        by_cases hse : (some i) ∈ seen
        · rw [if_pos (hmem.mpr hse), if_pos hse]
        · rw [if_neg (fun hc => hse (hmem.mp hc)), if_neg hse]

/-- C1 (corrected): the at-most-once guarantee holds only in the Graph
download path.  There, for every run-scoped seen set not yet holding the
truthy native id `i`, if messages with id `i` are fetched at least once
in the processed stream — e.g. from two different folders, whose chunks
all pass through this body with the shared seen set — then exactly one
of them passes the dedup check and is persisted; every later occurrence
is skipped.  The EWS download path performs no message deduplication at
all and persists every fetched copy (see the counterexample). -/
theorem claim_C1_amended (save : GraphMsg → Option String) (msgs : List GraphMsg)
    (seen : List (Option String)) (i : String) (hi : i ≠ "")
    (hnew : (some i) ∉ seen)
    (hocc : 1 ≤ msgs.countP (fun m => m.id = some i)) :
    (MailDownloaderGraph.processEmails save msgs seen).2.2.countP
      (fun m => m.id = some i) = 1 := by
  rw [processEmails_dedup save i hi msgs seen, if_neg hnew]
  omega

/-- C1 witness: a stream carrying the id `a` twice with a fresh seen set
yields exactly one save-attempted message with that id. -/
theorem claim_C1_witness :
    (MailDownloaderGraph.processEmails (fun m => some m.data)
      [⟨some "a", "x1"⟩, ⟨some "a", "x2"⟩] []).2.2.countP
      (fun m => m.id = some "a") = 1 :=
  claim_C1_amended (fun m => some m.data) [⟨some "a", "x1"⟩, ⟨some "a", "x2"⟩] []
    "a" (by decide) (by simp) (by decide)

/-- C1 counterexample: in the EWS path the same message — native id
`m1` — fetched from two folders of one run is persisted twice: the run
returns two persisted records for one id, so the dedup check does not
return true exactly once in every download path (the EWS path has no
dedup check at all). -/
theorem claim_C1_counterexample :
    MailDownloader.download_run ⟨50, true, 100⟩
      [fun _ => Except.ok [(⟨some "m1", "m1"⟩ : GraphMsg)],
        fun _ => Except.ok [(⟨some "m1", "m1"⟩ : GraphMsg)]]
      (fun m => some (m.data ++ ".txt")) 10 = ["m1.txt", "m1.txt"] := by
  decide

end MailLLM
